import Mathlib

/-!
# CppHtpp: the request-handling core of `Core::Server`

A shallow embedding of `src/src/server.h`, `src/src/server.cpp` and the `View`
class of `src/src/loadView.h`.

* `std::string` is a `List Char`, one `Char` per byte.
* `std::unordered_map<std::string, Route *> routes` is an association list with
  at most one entry per key; its iteration order is unspecified in C++ and is
  fixed here as most-recently-assigned first.
* `std::map<std::string, int> clientRequests` and
  `std::map<std::string, time_t> lastRequestTime` are finite partial functions.
* The socket, the clock and the file system are explicit inputs; what a
  connection handler does to the socket is returned as a list of `Effect`s.
-/

namespace Core

/-- A `std::string`, byte by byte. -/
abbrev Str := List Char

/-! ## Data model (`server.h`) -/

/-- What a connection handler does to the outside world, in program order. -/
inductive Effect where
  | read (socket : Int)
  | send (socket : Int) (bytes : Str)
  | close (socket : Int)
  deriving DecidableEq, Repr

/-- The `struct Response` of `server.h`. -/
structure Response where
  status : Str
  body : Str
  socket : Int
  deriving DecidableEq, Repr

/-- The `struct Request` of `server.h`. -/
structure Request where
  method : Str
  path : Str
  body : Str
  deriving DecidableEq, Repr

/-- A `std::function<void(Request *, Response *)>`: the handler is given the
request and the response object and acts on the socket. The response object is
not used by the caller after the handler returns, so only the effects are kept. -/
abbrev Handler := Request → Response → List Effect

/-- The `struct Route` of `server.h`: `path`, `handler`, `method`, in this order. -/
structure Route where
  path : Str
  handler : Handler
  method : Str

/-- `Response::send`: frame the response as
`"HTTP/1.1 " + status + "\r\n\r\n" + body`, send it on the socket and close the
socket. -/
def Response.send (res : Response) : List Effect :=
  let response : Str := "HTTP/1.1 ".toList ++ res.status ++ "\r\n\r\n".toList ++ res.body
  [Effect.send res.socket response, Effect.close res.socket]

/-! ## The route table -/

/-- The type of `Server::routes`. -/
abbrev Routes := List (Str × Route)

/-- `routes.find(path)` / `routes[path]` on a present key. -/
def Routes.find (routes : Routes) (path : Str) : Option Route :=
  match routes with
  | [] => none
  | (k, r) :: rest => if k = path then some r else Routes.find rest path

/-- `routes.count(path)`. -/
def Routes.count (routes : Routes) (path : Str) : Nat :=
  match Routes.find routes path with
  | some _ => 1
  | none => 0

/-- `routes.erase(path)`. -/
def Routes.erase (routes : Routes) (path : Str) : Routes :=
  routes.filter (fun kr => !(decide (kr.1 = path)))

/-- `routes[path] = route`: the entry of `path` is created or overwritten. -/
def Routes.assign (routes : Routes) (path : Str) (route : Route) : Routes :=
  (path, route) :: Routes.erase routes path

/-- `std::tolower` on one byte in the "C" locale. -/
def tolower (c : Char) : Char :=
  if 'A' ≤ c ∧ c ≤ 'Z' then Char.ofNat (c.toNat + 32) else c

/-- `std::transform(path.begin(), path.end(), path.begin(), tolower)`. -/
def lowercase (path : Str) : Str := path.map tolower

/-- `Server::get`: for each path, lower-case it and store
`new Route{path, handler}` (the `method` member is value-initialised to the
empty string) under the lower-cased path. -/
def get (routes : Routes) (paths : List Str) (handler : Handler) : Routes :=
  paths.foldl
    (fun rs path =>
      let path := lowercase path
      Routes.assign rs path { path := path, handler := handler, method := [] })
    routes

/-- `Server::post`: the same loop as `Server::get`. -/
def post (routes : Routes) (paths : List Str) (handler : Handler) : Routes :=
  paths.foldl
    (fun rs path =>
      let path := lowercase path
      Routes.assign rs path { path := path, handler := handler, method := [] })
    routes

/-- `Server::put`: the same loop as `Server::get`. -/
def put (routes : Routes) (paths : List Str) (handler : Handler) : Routes :=
  paths.foldl
    (fun rs path =>
      let path := lowercase path
      Routes.assign rs path { path := path, handler := handler, method := [] })
    routes

/-- `Server::del`: for each path, lower-case it and erase that key. -/
def del (routes : Routes) (paths : List Str) : Routes :=
  paths.foldl (fun rs path => Routes.erase rs (lowercase path)) routes

/-- `Server::pnf`: `routes["*"] = new Route{"*", handler}`. -/
def pnf (routes : Routes) (handler : Handler) : Routes :=
  Routes.assign routes "*".toList { path := "*".toList, handler := handler, method := [] }

/-- One call of the public route-table interface of `Server`. -/
inductive RouteOp where
  | get (paths : List Str) (handler : Handler)
  | post (paths : List Str) (handler : Handler)
  | put (paths : List Str) (handler : Handler)
  | del (paths : List Str)
  | pnf (handler : Handler)

/-- The route table after one interface call. -/
def RouteOp.apply (routes : Routes) : RouteOp → Routes
  | RouteOp.get paths handler => Core.get routes paths handler
  | RouteOp.post paths handler => Core.post routes paths handler
  | RouteOp.put paths handler => Core.put routes paths handler
  | RouteOp.del paths => Core.del routes paths
  | RouteOp.pnf handler => Core.pnf routes handler

/-- The route table after a sequence of interface calls, oldest first. -/
def applyOps (routes : Routes) (ops : List RouteOp) : Routes :=
  ops.foldl RouteOp.apply routes

/-- The keys an interface call writes or erases. -/
def RouteOp.keys : RouteOp → List Str
  | RouteOp.get paths _ => paths.map lowercase
  | RouteOp.post paths _ => paths.map lowercase
  | RouteOp.put paths _ => paths.map lowercase
  | RouteOp.del paths => paths.map lowercase
  | RouteOp.pnf _ => ["*".toList]

/-- The keys an interface call registers a route under (none for `del`). -/
def RouteOp.registers : RouteOp → List Str
  | RouteOp.del _ => []
  | op => RouteOp.keys op

/-! ## The rate limiter (`Server::rateLimit`) -/

/-- The state of a `Server` object that the connection handler reads or writes.
`MAX_REQUESTS`, `TIME_PERIOD` and the stored counts are C `int`s, the stored
times are `time_t`s; no arithmetic on them leaves the `int` range (the only
increment is taken when the count is below `maxRequests`). -/
structure Server where
  MAX_REQUESTS : Int
  TIME_PERIOD : Int
  routes : Routes
  clientRequests : Str → Option Int
  lastRequestTime : Str → Option Int
  devMode : Bool

/-- `m[key] = value` on a `std::map`. -/
def mapSet (m : Str → Option Int) (key : Str) (value : Int) : Str → Option Int :=
  fun k => if k = key then some value else m k

/-- `Server::rateLimit`, with `clientIP = getIPAddress(clientSocket)` and
`now = time(nullptr)` as inputs. `difftime(now, last)` is the difference
`now - last`. Reading `lastRequestTime[clientIP]` creates the entry with value 0
when it is absent. Returns `true` when the client is to be rejected. -/
def rateLimit (s : Server) (clientIP : Str) (now : Int) (maxRequests timePeriod : Int) :
    Bool × Server :=
  match s.clientRequests clientIP with
  | none =>
    (false, { s with clientRequests := mapSet s.clientRequests clientIP 1,
                     lastRequestTime := mapSet s.lastRequestTime clientIP now })
  | some requests =>
    let last := (s.lastRequestTime clientIP).getD 0
    let timeDiff := now - last
    if timeDiff < timePeriod ∧ requests ≥ maxRequests then
      (true, { s with lastRequestTime := mapSet s.lastRequestTime clientIP last })
    else if timeDiff ≥ timePeriod then
      (false, { s with clientRequests := mapSet s.clientRequests clientIP 1,
                       lastRequestTime := mapSet s.lastRequestTime clientIP now })
    else
      (false, { s with clientRequests := mapSet s.clientRequests clientIP (requests + 1),
                       lastRequestTime := mapSet s.lastRequestTime clientIP now })

/-- `Server::setTimeouts`. -/
def setTimeouts (s : Server) (maxRequests timePeriod : Int) : Server :=
  { s with MAX_REQUESTS := maxRequests, TIME_PERIOD := timePeriod }

/-- A freshly constructed `Server`: the member initialisers of `server.h`
(`MAX_REQUESTS = 80, TIME_PERIOD = 10`, `devMode = false`) and empty maps. -/
def Server.init : Server :=
  { MAX_REQUESTS := 80, TIME_PERIOD := 10, routes := [],
    clientRequests := fun _ => none, lastRequestTime := fun _ => none, devMode := false }

/-- Successive `rateLimit` calls, oldest first, each given as the client address
and the time of the call: the verdict of each call, tagged with its address,
and the final state. -/
def rateLimitLog (s : Server) (maxRequests timePeriod : Int) :
    List (Str × Int) → List (Str × Bool) × Server
  | [] => ([], s)
  | (clientIP, now) :: later =>
    let r := rateLimit s clientIP now maxRequests timePeriod
    let rs := rateLimitLog r.2 maxRequests timePeriod later
    ((clientIP, r.1) :: rs.1, rs.2)

/-- The times at which `clientIP` calls, in order. -/
def timesOf (clientIP : Str) (calls : List (Str × Int)) : List Int :=
  (calls.filter (fun e => decide (e.1 = clientIP))).map (fun e => e.2)

/-- The verdicts given to `clientIP`, in order. -/
def verdictsOf (clientIP : Str) (log : List (Str × Bool)) : List Bool :=
  (log.filter (fun e => decide (e.1 = clientIP))).map (fun e => e.2)

/-! ## String primitives used by the connection handler -/

/-- `std::string::npos` for a 64-bit `size_t`. -/
def npos : Nat := 2 ^ 64 - 1

/-- The search loop of `std::string::find`: the first position, counted from
`i`, at which `pat` occurs in `s`, and `npos` when there is none. -/
def findFrom (pat : Str) : Str → Nat → Nat
  | [], i => if pat = [] then i else npos
  | c :: cs, i => if pat.isPrefixOf (c :: cs) then i else findFrom pat cs (i + 1)

/-- `s.find(pat)`. -/
def find (s pat : Str) : Nat := findFrom pat s 0

/-- `s.substr(pos)`: throws `std::out_of_range` (here `none`) when
`pos > s.size()`. -/
def substr (s : Str) (pos : Nat) : Option Str :=
  if pos > s.length then none else some (s.drop pos)

/-- `std::isspace` in the "C" locale. -/
def isspace (c : Char) : Bool :=
  c = ' ' || c = '\t' || c = '\n' || c = '\x0b' || c = '\x0c' || c = '\r'

/-- One `iss >> token`: skip leading white space, then take bytes up to the next
white space. Gives the token and the rest of the stream; on an exhausted stream
the token stays empty. -/
def extractToken (stream : Str) : Str × Str :=
  let s := stream.dropWhile isspace
  (s.takeWhile (fun c => !isspace c), s.dropWhile (fun c => !isspace c))

/-- `std::replace(first, last, old, new)`. -/
def replace (s : Str) (old new : Char) : Str :=
  s.map (fun c => if c = old then new else c)

/-- The loop of `std::unique` after the first element: `kept` is the last
element kept so far; an element is dropped when `pred kept element` holds. -/
def uniqueFrom (pred : Char → Char → Bool) (kept : Char) : Str → Str
  | [] => []
  | c :: cs => if pred kept c then uniqueFrom pred kept cs else c :: uniqueFrom pred c cs

/-- `s.erase(std::unique(s.begin(), s.end(), pred), s.end())`. -/
def unique (pred : Char → Char → Bool) : Str → Str
  | [] => []
  | c :: cs => c :: uniqueFrom pred c cs

/-- The path normalisation of `clientHandler` (lines 71-75): backslashes become
slashes, then adjacent slashes are collapsed by `std::unique`. -/
def normalize (path : Str) : Str :=
  unique (fun a b => a = '/' && b = '/') (replace path '\\' '/')

/-- The rule of the specification for collapsing: every maximal run of `'/'`
becomes a single `'/'`, all other characters are kept in order. -/
def collapseRuns : Str → Str
  | [] => []
  | c :: cs =>
    if c = '/' then '/' :: collapseRuns (cs.dropWhile (fun d => d = '/'))
    else c :: collapseRuns cs
termination_by s => s.length
decreasing_by
  all_goals simp_wf
  exact Nat.lt_succ_of_le (List.Sublist.length_le (List.dropWhile_sublist _))

/-- The normal form of the specification: replace every backslash by `'/'`, then
collapse the runs of `'/'`. -/
def normalizeSpec (path : Str) : Str :=
  collapseRuns (path.map (fun c => if c = '\\' then '/' else c))

/-! ## The connection handler (`Server::clientHandler`) -/

/-- The ways the handler can leave the defined behaviour of C++. -/
inductive Fault where
  | outOfRange
  | nullRoute
  deriving DecidableEq, Repr

/-- The `DELIMITER` of `clientHandler`. -/
def DELIMITER : Str := "\r\n\r\n".toList

/-- Lines 66-79 of `clientHandler`: build the `Request` from the bytes read.
The third token, `protocol`, is extracted and never used. The position
arithmetic is `size_t` arithmetic, modulo `2 ^ 64`. -/
def parse (request : Str) : Except Fault Request :=
  let t1 := extractToken request
  let method := t1.1
  let t2 := extractToken t1.2
  let path := normalize t2.1
  match substr request ((find request DELIMITER + DELIMITER.length) % 2 ^ 64) with
  | none => Except.error Fault.outOfRange
  | some body => Except.ok { method := method, path := path, body := body }

/-- `Server::serveFile`, over a file system given as a partial map from relative
path to content: open `path.substr(1)` (the only caller passes a path that
starts with `/public`, so `substr` does not throw); on success the body becomes
the content; in both cases the response is sent. -/
def serveFile (fs : Str → Option Str) (path : Str) (res : Response) : List Effect :=
  match fs (path.drop 1) with
  | some content => Response.send { res with body := content }
  | none => Response.send res

/-- `Server::serveStaticFile`: whether the path was taken, and the effects. -/
def serveStaticFile (fs : Str → Option Str) (path : Str) (res : Response) :
    Bool × List Effect :=
  if find path "/css".toList = 0 ∨ find path "/js".toList = 0 ∨ find path "/img".toList = 0 then
    (true, serveFile fs ("/public".toList ++ path) res)
  else
    (false, [])

/-- The body of the 403 answer of the diagnostic route. -/
def forbiddenBody : Str :=
  ("<style>body\x7bfont-size:30px;background-color:\n                       #282828; color: #ebdbb2; font-family:\n                       monospace;\x7d</style><h1>403 Forbidden</h1><p>Sorry but\n                       dev-mode is not enabled thus you cannot access this\n                       route.</p><p>Please enable dev-mode in order to access\n                       this route.</p>").toList

/-- The heading of the route listing of the diagnostic route. -/
def listingHead : Str :=
  ("<style>body\x7bfont-size:30px;background-color:\n                       #282828; color: #ebdbb2; font-family:\n                       monospace;\x7d</style><h1>200 OK</h1><p>Here are all the\n                       routes that are currently defined:</p>").toList

/-- The `routesList` string of the diagnostic route. -/
def routesList (routes : Routes) : Str :=
  routes.foldl
    (fun acc kv =>
      acc ++ ("<li><a href=\"".toList ++ kv.1 ++ "\">".toList ++ kv.1 ++ "</a>    ".toList ++
        kv.2.method ++ "</li>".toList))
    "<ul>".toList ++ "</ul>".toList

/-- One accepted connection: the client socket, what `getIPAddress` and
`time(nullptr)` give for it, and the result of `read` (`none` when `read`
fails, otherwise the bytes read, at most `BUFFER_SIZE = 1024`). -/
structure Conn where
  socket : Int
  ip : Str
  now : Int
  received : Option Str

/-- What one run of `clientHandler` leaves behind. -/
structure Outcome where
  server : Server
  effects : List Effect
  fault : Option Fault

/-- The dispatch of `clientHandler` (lines 81-115) on a parsed request.
`routes[path]->handler` on a key that is absent dereferences a null pointer:
the `nullRoute` fault. -/
def dispatch (fs : Str → Option Str) (s : Server) (socket : Int) (req : Request) :
    List Effect × Option Fault :=
  let path := req.path
  let res : Response := { status := "200 OK".toList, body := [], socket := socket }
  if Routes.count s.routes path ≠ 0 then
    match Routes.find s.routes path with
    | some route => (route.handler req res, none)
    | none => ([], some Fault.nullRoute)
  else
    let static := serveStaticFile fs path res
    if static.1 then (static.2, none)
    else if path = "/reactpp/api/routes".toList then
      let first :=
        if !s.devMode then
          Response.send { res with status := "403 Forbidden".toList, body := forbiddenBody }
        else []
      (first ++ Response.send
        { res with status := "200 OK".toList, body := listingHead ++ routesList s.routes }, none)
    else
      match Routes.find s.routes "*".toList with
      | some route => (route.handler req { res with status := "404 Not Found".toList }, none)
      | none => ([], some Fault.nullRoute)

/-- `Server::clientHandler`. -/
def clientHandler (fs : Str → Option Str) (s : Server) (c : Conn) : Outcome :=
  let limited := rateLimit s c.ip c.now s.MAX_REQUESTS s.TIME_PERIOD
  if limited.1 then
    { server := limited.2,
      effects := Response.send
        { status := "429 Too Many Requests".toList, body := [], socket := c.socket },
      fault := none }
  else
    match c.received with
    | none => { server := limited.2, effects := [Effect.read c.socket], fault := none }
    | some request =>
      match parse request with
      | Except.error f =>
        { server := limited.2, effects := [Effect.read c.socket], fault := some f }
      | Except.ok req =>
        let d := dispatch fs limited.2 c.socket req
        { server := limited.2, effects := Effect.read c.socket :: d.1, fault := d.2 }

/-- The connections handled one after the other, oldest first: the outcome of
each and the final server state. -/
def serveAll (fs : Str → Option Str) (s : Server) : List Conn → List Outcome × Server
  | [] => ([], s)
  | c :: later =>
    let o := clientHandler fs s c
    let rest := serveAll fs o.server later
    (o :: rest.1, rest.2)

/-! ## Example handlers and inputs

The handlers registered in `main.cpp` set the body of the response and send it;
the ones below do the same with fixed bodies. -/

/-- A handler that sets the body to `<h1>hi</h1>`, leaves the status alone and
sends the response. -/
def hiHandler : Handler :=
  fun _ res => Response.send { res with body := "<h1>hi</h1>".toList }

/-- A handler that sets the body to the request path and sends the response. -/
def echoHandler : Handler :=
  fun req res => Response.send { res with body := req.path }

/-- A not-found handler in the manner of `main.cpp`: it sets the 404 status and
a body, and sends the response. -/
def notFoundHandler : Handler :=
  fun _ res =>
    Response.send { res with status := "404 Not Found".toList, body := "not found".toList }

/-- A file system with no file. -/
def emptyFs : Str → Option Str := fun _ => none

/-- A client address. -/
def someIP : Str := "10.0.0.7".toList

/-- Another client address. -/
def otherIP : Str := "10.0.0.8".toList

/-- The connection of `someIP` on socket 4 at time `now` that sends `bytes`. -/
def connAt (now : Int) (bytes : String) : Conn :=
  { socket := 4, ip := someIP, now := now, received := some bytes.toList }

/-- The default server of `main.cpp` with a route for `/` and `/index.html` and a
not-found handler. -/
def demoServer : Server :=
  { Server.init with
    routes := pnf (get [] ["/".toList, "/index.html".toList] hiHandler) notFoundHandler }

/-- The `demoServer` with one more route, registered under a path that also
starts with a static-file stem. -/
def cssServer : Server :=
  { demoServer with routes := get demoServer.routes ["/css/site.css".toList] echoHandler }

/-- Eighty-one connections of `someIP` within ten seconds (nine per second, at
times 0 to 9). -/
def burst : List Conn :=
  (List.range 81).map (fun i => connAt (i / 9) "GET /index.html HTTP/1.1\r\n\r\n")

/-- The three bytes `\r\n\r`: the delimiter without its last byte. -/
def CRLFCR : Str := "\r\n\r".toList

/-- A file system with the single file `public/css/site.css`. -/
def demoFs : Str → Option Str :=
  fun path => if path = "public/css/site.css".toList then some "h1 \x7b color: red \x7d".toList
    else none

/-- The list item that the diagnostic route writes for one entry of the route
table: a link to the key, four blanks and the `method` member. -/
def listItem (kv : Str × Route) : Str :=
  "<li><a href=\"".toList ++ kv.1 ++ "\">".toList ++ kv.1 ++ "</a>    ".toList ++
    kv.2.method ++ "</li>".toList

/-- The invariant of the limiter for a fixed `maxRequests`: every client with a
request count has a count between 1 and `maxRequests` and a recorded time. -/
def Server.CountsWithin (s : Server) (maxRequests : Int) : Prop :=
  ∀ (ip : Str) (c : Int), s.clientRequests ip = some c →
    1 ≤ c ∧ c ≤ maxRequests ∧ s.lastRequestTime ip ≠ none

/-- `std::isupper` on one byte in the "C" locale: an upper-case ASCII letter. -/
def isupper (c : Char) : Bool := decide ('A' ≤ c ∧ c ≤ 'Z')

/-- The invariant of the route table: no key holds an upper-case ASCII letter,
and the `path` member of every stored route is its key. -/
def Routes.KeysLower (routes : Routes) : Prop :=
  ∀ kr ∈ routes, (∀ ch ∈ kr.1, isupper ch = false) ∧ kr.2.path = kr.1

/-! ## View rendering (`loadView.h`) -/

/-- The `keyWithBraces` of `View::replace`: `"{{" + key + "}}"`. -/
def keyWithBraces (key : Str) : Str := "\x7b\x7b".toList ++ key ++ "\x7d\x7d".toList

/-- `s.replace(pos, len, value)` of `std::string`, for `pos <= s.size()`. -/
def replaceAt (s : Str) (pos len : Nat) (value : Str) : Str :=
  s.take pos ++ value ++ s.drop (pos + len)

/-- `View::replace`, on the `html` member: the first occurrence of
`keyWithBraces`, if there is one, is replaced by `value`. -/
def View.replace (html key value : Str) : Str :=
  let pos := find html (keyWithBraces key)
  if pos ≠ npos then replaceAt html pos (keyWithBraces key).length value else html

/-- `View::render`: `replace` is called once for every entry of `data`, in the
order of the `std::map` (given here as the list of its entries), and the `html`
member is returned. -/
def View.render (html : Str) (data : List (Str × Str)) : Str :=
  data.foldl (fun h kv => View.replace h kv.1 kv.2) html

/-- A key that holds neither an opening nor a closing brace. -/
def braceFree (key : Str) : Prop := '\x7b' ∉ key ∧ '\x7d' ∉ key

/-! ## Route table lemmas -/

theorem Routes.find_erase_self (routes : Routes) (k : Str) :
    Routes.find (Routes.erase routes k) k = none := by
  induction routes with
  | nil => rfl
  | cons kr rest ih =>
    obtain ⟨k1, r⟩ := kr
    by_cases h : k1 = k
    · simpa [Routes.erase, List.filter, h] using ih
    · simpa [Routes.erase, List.filter, h, Routes.find] using ih

theorem Routes.find_erase_ne (routes : Routes) (k q : Str) (hq : q ≠ k) :
    Routes.find (Routes.erase routes k) q = Routes.find routes q := by
  induction routes with
  | nil => rfl
  | cons kr rest ih =>
    obtain ⟨k1, r⟩ := kr
    unfold Routes.erase at ih ⊢
    by_cases h : k1 = k
    · have h1 : ¬ k1 = q := fun e => hq (e ▸ h)
      rw [List.filter_cons_of_neg (by simp [h])]
      rw [ih]
      simp [Routes.find, h1]
    · rw [List.filter_cons_of_pos (by simp [h])]
      by_cases h2 : k1 = q
      · simp [Routes.find, h2]
      · simp only [Routes.find, h2, if_false]
        exact ih

theorem Routes.count_of_find_some (routes : Routes) (k : Str) (r : Route)
    (h : Routes.find routes k = some r) : Routes.count routes k = 1 := by
  simp [Routes.count, h]

theorem Routes.count_of_find_none (routes : Routes) (k : Str)
    (h : Routes.find routes k = none) : Routes.count routes k = 0 := by
  simp [Routes.count, h]

theorem Routes.find_assign_self (routes : Routes) (k : Str) (r : Route) :
    Routes.find (Routes.assign routes k r) k = some r := by
  simp [Routes.assign, Routes.find]

theorem Routes.find_assign_ne (routes : Routes) (k q : Str) (r : Route) (hq : q ≠ k) :
    Routes.find (Routes.assign routes k r) q = Routes.find routes q := by
  have h1 : k ≠ q := fun e => hq e.symm
  simp [Routes.assign, Routes.find, h1, Routes.find_erase_ne routes k q hq]

theorem tolower_idem (c : Char) : tolower (tolower c) = tolower c := by
  unfold tolower
  by_cases h : 'A' ≤ c ∧ c ≤ 'Z'
  · rw [if_pos h]
    have h1 : 65 ≤ c.toNat ∧ c.toNat ≤ 90 := by
      obtain ⟨a, b⟩ := h
      exact ⟨a, b⟩
    have h2 : ¬ ('A' ≤ Char.ofNat (c.toNat + 32) ∧ Char.ofNat (c.toNat + 32) ≤ 'Z') := by
      obtain ⟨a, b⟩ := h1
      interval_cases c.toNat <;> decide
    rw [if_neg h2]
  · simp [h]

theorem lowercase_idem (p : Str) : lowercase (lowercase p) = lowercase p := by
  simp [lowercase, List.map_map, Function.comp_def, tolower_idem]

theorem find_get_of_not_mem (T : Routes) (ps : List Str) (h : Handler) (q : Str)
    (hq : q ∉ ps.map lowercase) : Routes.find (get T ps h) q = Routes.find T q := by
  induction ps generalizing T with
  | nil => rfl
  | cons p ps ih =>
    simp only [List.map_cons, List.mem_cons, not_or] at hq
    show Routes.find (get (Routes.assign T (lowercase p) _) ps h) q = _
    rw [ih _ hq.2, Routes.find_assign_ne _ _ _ _ hq.1]

theorem find_get_of_key (T : Routes) (ps : List Str) (h : Handler) (k : Str)
    (hk : k ∈ ps.map lowercase) :
    Routes.find (get T ps h) k = some { path := k, handler := h, method := [] } := by
  induction ps generalizing T with
  | nil => simp at hk
  | cons p ps ih =>
    show Routes.find (get (Routes.assign T (lowercase p) _) ps h) k = _
    by_cases hin : k ∈ ps.map lowercase
    · exact ih _ hin
    · have e : k = lowercase p := by
        rcases List.mem_cons.1 hk with e | e
        · exact e
        · exact absurd e hin
      rw [find_get_of_not_mem _ _ _ _ hin, e, Routes.find_assign_self]

theorem find_get_of_mem (T : Routes) (ps : List Str) (h : Handler) (P : Str) (hP : P ∈ ps) :
    Routes.find (get T ps h) (lowercase P) =
      some { path := lowercase P, handler := h, method := [] } :=
  find_get_of_key T ps h _ (List.mem_map.2 ⟨P, hP, rfl⟩)

theorem find_del_of_not_mem (T : Routes) (ps : List Str) (q : Str)
    (hq : q ∉ ps.map lowercase) : Routes.find (del T ps) q = Routes.find T q := by
  induction ps generalizing T with
  | nil => rfl
  | cons p ps ih =>
    simp only [List.map_cons, List.mem_cons, not_or] at hq
    show Routes.find (del (Routes.erase T (lowercase p)) ps) q = _
    rw [ih _ hq.2, Routes.find_erase_ne _ _ _ hq.1]

theorem find_del_none (T : Routes) (ps : List Str) (q : Str)
    (hT : Routes.find T q = none) : Routes.find (del T ps) q = none := by
  induction ps generalizing T with
  | nil => exact hT
  | cons p ps ih =>
    show Routes.find (del (Routes.erase T (lowercase p)) ps) q = none
    apply ih
    by_cases e : q = lowercase p
    · rw [e]; exact Routes.find_erase_self _ _
    · rw [Routes.find_erase_ne _ _ _ e]; exact hT

theorem find_del_of_mem (T : Routes) (ps : List Str) (q : Str)
    (hq : q ∈ ps.map lowercase) : Routes.find (del T ps) q = none := by
  induction ps generalizing T with
  | nil => simp at hq
  | cons p ps ih =>
    show Routes.find (del (Routes.erase T (lowercase p)) ps) q = none
    by_cases hin : q ∈ ps.map lowercase
    · exact ih _ hin
    · have e : q = lowercase p := by
        rcases List.mem_cons.1 hq with e | e
        · exact e
        · exact absurd e hin
      rw [e]
      exact find_del_none _ _ _ (Routes.find_erase_self _ _)

theorem post_eq_get (T : Routes) (ps : List Str) (h : Handler) : post T ps h = get T ps h := rfl

theorem put_eq_get (T : Routes) (ps : List Str) (h : Handler) : put T ps h = get T ps h := rfl

theorem find_apply_of_not_mem (T : Routes) (op : RouteOp) (q : Str) (hq : q ∉ op.keys) :
    Routes.find (RouteOp.apply T op) q = Routes.find T q := by
  cases op with
  | get ps h => exact find_get_of_not_mem T ps h q hq
  | post ps h => exact find_get_of_not_mem T ps h q hq
  | put ps h => exact find_get_of_not_mem T ps h q hq
  | del ps => exact find_del_of_not_mem T ps q hq
  | pnf h =>
    have hne : q ≠ "*".toList := by simpa [RouteOp.keys] using hq
    exact Routes.find_assign_ne _ _ _ _ hne

theorem find_apply_none (T : Routes) (op : RouteOp) (q : Str) (hq : q ∉ op.registers)
    (hT : Routes.find T q = none) : Routes.find (RouteOp.apply T op) q = none := by
  cases op with
  | del ps => exact find_del_none T ps q hT
  | get ps h => rw [find_apply_of_not_mem _ _ _ hq]; exact hT
  | post ps h => rw [find_apply_of_not_mem _ _ _ hq]; exact hT
  | put ps h => rw [find_apply_of_not_mem _ _ _ hq]; exact hT
  | pnf h => rw [find_apply_of_not_mem _ _ _ hq]; exact hT

theorem find_applyOps_of_not_mem (T : Routes) (ops : List RouteOp) (q : Str)
    (hq : ∀ op ∈ ops, q ∉ op.keys) :
    Routes.find (applyOps T ops) q = Routes.find T q := by
  induction ops generalizing T with
  | nil => rfl
  | cons op ops ih =>
    show Routes.find (applyOps (RouteOp.apply T op) ops) q = _
    rw [ih _ (fun o ho => hq o (List.mem_cons_of_mem _ ho)),
      find_apply_of_not_mem _ _ _ (hq op (List.mem_cons_self _ _))]

theorem find_applyOps_none (T : Routes) (ops : List RouteOp) (q : Str)
    (hq : ∀ op ∈ ops, q ∉ op.registers) (hT : Routes.find T q = none) :
    Routes.find (applyOps T ops) q = none := by
  induction ops generalizing T with
  | nil => exact hT
  | cons op ops ih =>
    show Routes.find (applyOps (RouteOp.apply T op) ops) q = none
    exact ih _ (fun o ho => hq o (List.mem_cons_of_mem _ ho))
      (find_apply_none _ _ _ (hq op (List.mem_cons_self _ _)) hT)

theorem registers_lowercase (op : RouteOp) (q : Str) (hq : q ∈ op.registers) :
    lowercase q = q := by
  cases op with
  | del ps => simp [RouteOp.registers] at hq
  | get ps h =>
    obtain ⟨p, -, e⟩ := List.mem_map.1 hq
    rw [← e, lowercase_idem]
  | post ps h =>
    obtain ⟨p, -, e⟩ := List.mem_map.1 hq
    rw [← e, lowercase_idem]
  | put ps h =>
    obtain ⟨p, -, e⟩ := List.mem_map.1 hq
    rw [← e, lowercase_idem]
  | pnf h =>
    have e : q = "*".toList := by simpa [RouteOp.registers, RouteOp.keys] using hq
    rw [e]
    decide

/-! ## The claims -/

/-- C1. Registration is last-write-wins and lookup is exact. After `get`, `post`
or `put` registers `P` with `h`, and whatever interface calls follow that do not
touch the key `lowercase P`, looking up `lowercase P` finds the route carrying
`h`, whatever the table held before. Starting from the empty table, a path whose
lower-case form was never registered has no route, neither under its lower-case
form nor as written; and a path removed by `del` and not registered again has no
route. -/
theorem C1_registration_last_write_wins :
    (∀ (T : Routes) (ps : List Str) (h : Handler) (P : Str) (later : List RouteOp),
      P ∈ ps → (∀ op ∈ later, lowercase P ∉ op.keys) →
        Routes.find (applyOps (get T ps h) later) (lowercase P)
            = some { path := lowercase P, handler := h, method := [] } ∧
          Routes.find (applyOps (post T ps h) later) (lowercase P)
            = some { path := lowercase P, handler := h, method := [] } ∧
          Routes.find (applyOps (put T ps h) later) (lowercase P)
            = some { path := lowercase P, handler := h, method := [] }) ∧
    (∀ (ops : List RouteOp) (q : Str), (∀ op ∈ ops, lowercase q ∉ op.registers) →
        Routes.find (applyOps [] ops) (lowercase q) = none ∧
          Routes.find (applyOps [] ops) q = none) ∧
    (∀ (T : Routes) (ps : List Str) (P : Str) (later : List RouteOp),
      P ∈ ps → (∀ op ∈ later, lowercase P ∉ op.registers) →
        Routes.find (applyOps (del T ps) later) (lowercase P) = none) := by
  refine ⟨?_, ?_, ?_⟩
  · intro T ps h P later hP hlater
    have key : Routes.find (applyOps (get T ps h) later) (lowercase P)
        = some { path := lowercase P, handler := h, method := [] } := by
      rw [find_applyOps_of_not_mem _ _ _ hlater]
      exact find_get_of_mem T ps h P hP
    exact ⟨key, key, key⟩
  · intro ops q hq
    refine ⟨find_applyOps_none [] ops _ hq rfl, find_applyOps_none [] ops _ ?_ rfl⟩
    intro op hop hmem
    have e := registers_lowercase op q hmem
    exact hq op hop (e.symm ▸ hmem)
  · intro T ps P later hP hlater
    exact find_applyOps_none _ _ _ hlater
      (find_del_of_mem T ps _ (List.mem_map.2 ⟨P, hP, rfl⟩))

theorem C1_registration_last_write_wins_witness :
    (Routes.find (applyOps (get [] ["/".toList, "/Index.HTML".toList] hiHandler)
          [RouteOp.pnf notFoundHandler, RouteOp.del ["/old".toList]])
        (lowercase "/Index.HTML".toList)
      = some { path := lowercase "/Index.HTML".toList, handler := hiHandler, method := [] }) ∧
    (Routes.find (applyOps [] [RouteOp.get ["/a".toList] hiHandler, RouteOp.del ["/B".toList]])
        "/B".toList = none) ∧
    (Routes.find (applyOps (del (get [] ["/a".toList] hiHandler) ["/A".toList])
          [RouteOp.pnf notFoundHandler]) (lowercase "/A".toList) = none) :=
  ⟨(C1_registration_last_write_wins.1 [] ["/".toList, "/Index.HTML".toList] hiHandler
      "/Index.HTML".toList [RouteOp.pnf notFoundHandler, RouteOp.del ["/old".toList]]
      (by decide) (by decide)).1,
   (C1_registration_last_write_wins.2.1
      [RouteOp.get ["/a".toList] hiHandler, RouteOp.del ["/B".toList]] "/B".toList
      (by decide)).2,
   C1_registration_last_write_wins.2.2 (get [] ["/a".toList] hiHandler) ["/A".toList]
      "/A".toList [RouteOp.pnf notFoundHandler] (by decide) (by decide)⟩

/-! ### The rate limiter -/

theorem rateLimit_clientRequests_other (s : Server) (ip other : Str) (now m t : Int)
    (hne : ip ≠ other) :
    (rateLimit s other now m t).2.clientRequests ip = s.clientRequests ip := by
  unfold rateLimit
  split
  · simp [mapSet, hne]
  · simp only
    split_ifs <;> simp [mapSet, hne]

theorem rateLimit_lastRequestTime_other (s : Server) (ip other : Str) (now m t : Int)
    (hne : ip ≠ other) :
    (rateLimit s other now m t).2.lastRequestTime ip = s.lastRequestTime ip := by
  unfold rateLimit
  split
  · simp [mapSet, hne]
  · simp only
    split_ifs <;> simp [mapSet, hne]

theorem timesOf_cons_self (ip : Str) (x : Int) (calls : List (Str × Int)) :
    timesOf ip ((ip, x) :: calls) = x :: timesOf ip calls := by
  simp [timesOf]

theorem timesOf_cons_other (ip other : Str) (x : Int) (calls : List (Str × Int))
    (hne : other ≠ ip) : timesOf ip ((other, x) :: calls) = timesOf ip calls := by
  simp [timesOf, hne]

theorem verdictsOf_cons_self (ip : Str) (v : Bool) (log : List (Str × Bool)) :
    verdictsOf ip ((ip, v) :: log) = v :: verdictsOf ip log := by
  simp [verdictsOf]

theorem verdictsOf_cons_other (ip other : Str) (v : Bool) (log : List (Str × Bool))
    (hne : other ≠ ip) : verdictsOf ip ((other, v) :: log) = verdictsOf ip log := by
  simp [verdictsOf, hne]

theorem rateLimitLog_cons (s : Server) (m t : Int) (ip : Str) (x : Int)
    (calls : List (Str × Int)) :
    (rateLimitLog s m t ((ip, x) :: calls)).1
      = (ip, (rateLimit s ip x m t).1) :: (rateLimitLog (rateLimit s ip x m t).2 m t calls).1 :=
  rfl

theorem verdictsOf_no_calls (ip : Str) (m t : Int) :
    ∀ (calls : List (Str × Int)) (s : Server), timesOf ip calls = [] →
      verdictsOf ip (rateLimitLog s m t calls).1 = [] := by
  intro calls
  induction calls with
  | nil => intro s _; rfl
  | cons e calls ih =>
    intro s h
    obtain ⟨other, x⟩ := e
    by_cases hne : other = ip
    · subst hne
      rw [timesOf_cons_self] at h
      cases h
    · rw [timesOf_cons_other _ _ _ _ hne] at h
      rw [rateLimitLog_cons, verdictsOf_cons_other _ _ _ _ hne]
      exact ih _ h

theorem rateLimitLog_in_window (ip : Str) (maxRequests timePeriod t0 : Int) :
    ∀ (calls : List (Str × Int)) (s : Server) (c t : Int) (ts : List Int),
      s.clientRequests ip = some c → s.lastRequestTime ip = some t →
      c ≤ maxRequests → t0 ≤ t → timesOf ip calls = ts →
      ts.length = (maxRequests - c).toNat + 1 →
      List.Chain (fun a b => a ≤ b) t ts → (∀ x ∈ ts, x - t0 < timePeriod) →
      verdictsOf ip (rateLimitLog s maxRequests timePeriod calls).1
        = List.replicate (maxRequests - c).toNat false ++ [true] := by
  intro calls
  induction calls with
  | nil =>
    intro s c t ts _ _ _ _ htimes hlen
    subst htimes
    simp [timesOf] at hlen
  | cons e calls ih =>
    intro s c t ts hc ht hcm ht0 htimes hlen hchain hwin
    obtain ⟨other, x⟩ := e
    by_cases hne : other = ip
    · subst hne
      rw [timesOf_cons_self] at htimes
      subst htimes
      have htx : t ≤ x := (List.chain_cons.1 hchain).1
      have hxs := (List.chain_cons.1 hchain).2
      have hx : x - t0 < timePeriod := hwin x (List.mem_cons_self _ _)
      have hdiff : x - t < timePeriod := by omega
      rw [rateLimitLog_cons, verdictsOf_cons_self]
      by_cases hfull : c = maxRequests
      · subst hfull
        have hnone : timesOf other calls = [] := by
          have : (timesOf other calls).length = 0 := by simpa using hlen
          exact List.length_eq_zero.1 this
        rw [verdictsOf_no_calls other _ _ calls _ hnone]
        simp [rateLimit, hc, ht, hdiff]
      · have hlt : c < maxRequests := lt_of_le_of_ne hcm hfull
        have hstep : rateLimit s other x maxRequests timePeriod
            = (false, { s with clientRequests := mapSet s.clientRequests other (c + 1),
                               lastRequestTime := mapSet s.lastRequestTime other x }) := by
          have h1 : ¬ (maxRequests ≤ c) := by omega
          have h2 : ¬ (timePeriod ≤ x - t) := by omega
          simp [rateLimit, hc, ht, h1, h2]
        have hnat : (maxRequests - c).toNat = (maxRequests - (c + 1)).toNat + 1 := by omega
        have hrec := ih { s with clientRequests := mapSet s.clientRequests other (c + 1),
                                 lastRequestTime := mapSet s.lastRequestTime other x }
          (c + 1) x (timesOf other calls) (by simp [mapSet]) (by simp [mapSet]) (by omega)
          (by omega) rfl (by simp only [List.length_cons] at hlen; omega) hxs
          (fun y hy => hwin y (List.mem_cons_of_mem _ hy))
        simp only [hstep, hrec, hnat, List.replicate_succ, List.cons_append]
    · rw [timesOf_cons_other _ _ _ _ hne] at htimes
      rw [rateLimitLog_cons, verdictsOf_cons_other _ _ _ _ hne]
      have hne2 : ip ≠ other := fun e => hne e.symm
      exact ih _ c t ts
        (by rw [rateLimit_clientRequests_other _ _ _ _ _ _ hne2]; exact hc)
        (by rw [rateLimit_lastRequestTime_other _ _ _ _ _ _ hne2]; exact ht)
        hcm ht0 htimes hlen hchain hwin

theorem rateLimitLog_from_first_call (ip : Str) (maxRequests timePeriod t1 : Int)
    (rest : List Int) (hmax : 1 ≤ maxRequests) (hlen : rest.length = maxRequests.toNat)
    (hsorted : List.Chain (fun a b => a ≤ b) t1 rest)
    (hwin : ∀ x ∈ rest, x - t1 < timePeriod) :
    ∀ (calls : List (Str × Int)) (s : Server),
      s.clientRequests ip = none → timesOf ip calls = t1 :: rest →
      verdictsOf ip (rateLimitLog s maxRequests timePeriod calls).1
        = List.replicate maxRequests.toNat false ++ [true] := by
  intro calls
  induction calls with
  | nil => intro s _ h; simp [timesOf] at h
  | cons e calls ih =>
    intro s hnew htimes
    obtain ⟨other, x⟩ := e
    by_cases hne : other = ip
    · subst hne
      rw [timesOf_cons_self] at htimes
      obtain ⟨hx, hrest⟩ := List.cons.inj htimes
      subst hx
      have hstep : rateLimit s other x maxRequests timePeriod
          = (false, { s with clientRequests := mapSet s.clientRequests other 1,
                             lastRequestTime := mapSet s.lastRequestTime other x }) := by
        simp [rateLimit, hnew]
      have hrec := rateLimitLog_in_window other maxRequests timePeriod x calls
        { s with clientRequests := mapSet s.clientRequests other 1,
                 lastRequestTime := mapSet s.lastRequestTime other x }
        1 x rest (by simp [mapSet]) (by simp [mapSet]) hmax (le_refl _) hrest (by omega)
        hsorted hwin
      have hnat : maxRequests.toNat = (maxRequests - 1).toNat + 1 := by omega
      rw [rateLimitLog_cons, verdictsOf_cons_self]
      simp only [hstep, hrec, hnat, List.replicate_succ, List.cons_append]
    · rw [timesOf_cons_other _ _ _ _ hne] at htimes
      rw [rateLimitLog_cons, verdictsOf_cons_other _ _ _ _ hne]
      have hne2 : ip ≠ other := fun e => hne e.symm
      exact ih _ (by rw [rateLimit_clientRequests_other _ _ _ _ _ _ hne2]; exact hnew) htimes

/-- C2. With `maxRequests >= 1` and no prior record for the client, if in a
sequence of `rateLimit` calls (calls of other clients may lie in between) the
client calls at time `t1` and then `maxRequests` more times, at non-decreasing
times that all lie less than `timePeriod` after `t1`, then its first
`maxRequests` calls are admitted (`false`) and its last one, the
`(maxRequests + 1)`-th, is rejected (`true`). -/
theorem C2_limit_reached_within_window (s : Server) (ip : Str) (maxRequests timePeriod : Int)
    (calls : List (Str × Int)) (t1 : Int) (rest : List Int)
    (hmax : 1 ≤ maxRequests) (hnew : s.clientRequests ip = none)
    (htimes : timesOf ip calls = t1 :: rest)
    (hlen : rest.length = maxRequests.toNat)
    (hsorted : List.Chain (fun a b => a ≤ b) t1 rest)
    (hwin : ∀ x ∈ rest, x - t1 < timePeriod) :
    verdictsOf ip (rateLimitLog s maxRequests timePeriod calls).1
      = List.replicate maxRequests.toNat false ++ [true] :=
  rateLimitLog_from_first_call ip maxRequests timePeriod t1 rest hmax hlen hsorted hwin
    calls s hnew htimes

theorem C2_limit_reached_within_window_witness :
    verdictsOf someIP
        (rateLimitLog Server.init 3 10
          [(someIP, 100), (otherIP, 100), (someIP, 100), (someIP, 104), (otherIP, 105),
           (someIP, 109)]).1
      = List.replicate (3 : Int).toNat false ++ [true] :=
  C2_limit_reached_within_window Server.init someIP 3 10
    [(someIP, 100), (otherIP, 100), (someIP, 100), (someIP, 104), (otherIP, 105),
     (someIP, 109)] 100 [100, 104, 109]
    (by decide) rfl (by decide) (by decide) (by simp) (by decide)

/-- C3. The limiter does not measure from the window start: with
`maxRequests = 2` and `timePeriod = 10`, a client calling at times 0, 9 and 18
is admitted twice and then rejected at time 18, although 18 is at least 10
seconds after the call at time 0 that last set its count to 1; the count stays
at 2 and the recorded time is 9, the time of the last admitted call. -/
theorem C3_window_measured_from_last_admitted_call :
    (rateLimitLog Server.init 2 10 [(someIP, 0), (someIP, 9), (someIP, 18)]).1
      = [(someIP, false), (someIP, false), (someIP, true)] ∧
    (rateLimitLog Server.init 2 10 [(someIP, 0), (someIP, 9), (someIP, 18)]).2.clientRequests
      someIP = some 2 ∧
    (rateLimitLog Server.init 2 10 [(someIP, 0), (someIP, 9)]).2.clientRequests someIP
      = some 2 ∧
    (rateLimitLog Server.init 2 10 [(someIP, 0), (someIP, 9)]).2.lastRequestTime someIP
      = some 9 := by
  decide

/-! ### Request parsing -/

theorem findFrom_absent (pat : Str) (hpat : pat ≠ []) :
    ∀ (s : Str) (i : Nat), (∀ k, pat.isPrefixOf (s.drop k) = false) → findFrom pat s i = npos := by
  intro s
  induction s with
  | nil => intro i _; simp [findFrom, hpat]
  | cons c cs ih =>
    intro i h
    have h0 : pat.isPrefixOf (c :: cs) = false := by simpa using h 0
    have hrest : ∀ k, pat.isPrefixOf (cs.drop k) = false := fun k => by simpa using h (k + 1)
    simp [findFrom, h0, ih (i + 1) hrest]

/-- What lines 66-79 do on bytes that hold no `"\r\n\r\n"`: `find` gives `npos`,
`npos + 4` wraps to 3, and `substr(3)` either throws or cuts the first three
bytes off. -/
theorem parse_of_no_delimiter (request : Str)
    (h : ∀ k, DELIMITER.isPrefixOf (request.drop k) = false) :
    parse request =
      if 3 > request.length then Except.error Fault.outOfRange
      else Except.ok { method := (extractToken request).1,
                       path := normalize (extractToken (extractToken request).2).1,
                       body := request.drop 3 } := by
  have hf : find request DELIMITER = npos := findFrom_absent DELIMITER (by decide) request 0 h
  have hpos : (npos + DELIMITER.length) % 2 ^ 64 = 3 := by decide
  unfold parse
  simp only [hf, hpos, substr]
  split_ifs <;> rfl

/-- C4. The missing header/body boundary is not guarded. On the bytes
`GET / HTTP/1.1\r\n`, which hold no `"\r\n\r\n"`, `find` gives `npos` and parsing
produces a `Request` whose body is the input from index 3 on; on the empty input
and on `GE` the `substr` call raises the out-of-range fault, which ends
`clientHandler`. -/
theorem C4_missing_boundary_not_guarded :
    find "GET / HTTP/1.1\r\n".toList DELIMITER = npos ∧
    parse "GET / HTTP/1.1\r\n".toList
      = Except.ok { method := "GET".toList, path := "/".toList,
                    body := " / HTTP/1.1\r\n".toList } ∧
    parse [] = Except.error Fault.outOfRange ∧
    parse "GE".toList = Except.error Fault.outOfRange ∧
    (clientHandler emptyFs Server.init (connAt 0 "")).fault = some Fault.outOfRange :=
  ⟨by decide, rfl, rfl, rfl, rfl⟩

/-! ### Path normalisation -/

theorem uniqueFrom_chain (pred : Char → Char → Bool) :
    ∀ (cs : Str) (kept : Char),
      List.Chain (fun a b => pred a b = false) kept (uniqueFrom pred kept cs) := by
  intro cs
  induction cs with
  | nil => intro kept; exact List.Chain.nil
  | cons c cs ih =>
    intro kept
    by_cases h : pred kept c = true
    · simp only [uniqueFrom, h, if_true]
      exact ih kept
    · simp only [uniqueFrom, h]
      exact List.Chain.cons (by simpa using h) (ih c)

theorem unique_chain (pred : Char → Char → Bool) (s : Str) :
    List.Chain' (fun a b => pred a b = false) (unique pred s) := by
  cases s with
  | nil => exact List.chain'_nil
  | cons c cs => exact uniqueFrom_chain pred cs c

theorem uniqueFrom_of_chain (pred : Char → Char → Bool) :
    ∀ (cs : Str) (kept : Char),
      List.Chain (fun a b => pred a b = false) kept cs → uniqueFrom pred kept cs = cs := by
  intro cs
  induction cs with
  | nil => intro kept _; rfl
  | cons c cs ih =>
    intro kept h
    obtain ⟨h1, h2⟩ := List.chain_cons.1 h
    simp [uniqueFrom, h1, ih c h2]

theorem unique_of_chain (pred : Char → Char → Bool) (s : Str)
    (h : List.Chain' (fun a b => pred a b = false) s) : unique pred s = s := by
  cases s with
  | nil => rfl
  | cons c cs => simp [unique, uniqueFrom_of_chain pred cs c h]

theorem mem_uniqueFrom (pred : Char → Char → Bool) (x : Char) :
    ∀ (cs : Str) (kept : Char), x ∈ uniqueFrom pred kept cs → x ∈ cs := by
  intro cs
  induction cs with
  | nil => intro kept h; simp [uniqueFrom] at h
  | cons c cs ih =>
    intro kept h
    by_cases hp : pred kept c = true
    · simp only [uniqueFrom, hp, if_true] at h
      exact List.mem_cons_of_mem _ (ih kept h)
    · simp only [uniqueFrom, hp] at h
      rcases List.mem_cons.1 h with e | e
      · exact e ▸ List.mem_cons_self _ _
      · exact List.mem_cons_of_mem _ (ih c e)

theorem mem_unique (pred : Char → Char → Bool) (x : Char) (s : Str)
    (h : x ∈ unique pred s) : x ∈ s := by
  cases s with
  | nil => simp [unique] at h
  | cons c cs =>
    rcases List.mem_cons.1 h with e | e
    · exact e ▸ List.mem_cons_self _ _
    · exact List.mem_cons_of_mem _ (mem_uniqueFrom pred x cs c e)

theorem not_mem_replace (s : Str) (old new : Char) (hne : new ≠ old) :
    old ∉ replace s old new := by
  intro h
  obtain ⟨c, -, e⟩ := List.mem_map.1 h
  by_cases hc : c = old
  · rw [if_pos hc] at e; exact hne e
  · rw [if_neg hc] at e; exact hc e

theorem replace_of_not_mem (s : Str) (old new : Char) (h : old ∉ s) :
    replace s old new = s := by
  induction s with
  | nil => rfl
  | cons c cs ih =>
    have hc : c ≠ old := fun e => h (e ▸ List.mem_cons_self _ _)
    have hcs : old ∉ cs := fun e => h (List.mem_cons_of_mem _ e)
    have ih2 := ih hcs
    simp only [replace] at ih2 ⊢
    simp [hc, ih2]

theorem normalize_no_backslash (p : Str) : '\\' ∉ normalize p := fun h =>
  not_mem_replace p '\\' '/' (by decide) (mem_unique _ _ _ h)

theorem normalize_chain (p : Str) :
    List.Chain' (fun a b => ¬ (a = '/' ∧ b = '/')) (normalize p) := by
  have h := unique_chain (fun a b => decide (a = '/') && decide (b = '/')) (replace p '\\' '/')
  refine List.Chain'.imp ?_ h
  intro a b hab
  simpa using hab

/-- C5. Path normalisation is idempotent. -/
theorem C5_normalize_idempotent (p : Str) : normalize (normalize p) = normalize p := by
  have h1 : replace (normalize p) '\\' '/' = normalize p :=
    replace_of_not_mem _ _ _ (normalize_no_backslash p)
  have h2 := unique_chain (fun a b => decide (a = '/') && decide (b = '/')) (replace p '\\' '/')
  show unique _ (replace (normalize p) '\\' '/') = normalize p
  rw [h1]
  exact unique_of_chain _ _ h2

theorem uniqueFrom_of_not_slash (c : Char) (hc : c ≠ '/') (cs : Str) :
    uniqueFrom (fun a b => decide (a = '/') && decide (b = '/')) c cs
      = unique (fun a b => decide (a = '/') && decide (b = '/')) cs := by
  cases cs with
  | nil => rfl
  | cons d ds => simp [uniqueFrom, unique, hc]

theorem uniqueFrom_slash (cs : Str) :
    uniqueFrom (fun a b => decide (a = '/') && decide (b = '/')) '/' cs
      = unique (fun a b => decide (a = '/') && decide (b = '/'))
          (cs.dropWhile (fun d => decide (d = '/'))) := by
  induction cs with
  | nil => rfl
  | cons d ds ih =>
    by_cases hd : d = '/'
    · subst hd
      simpa [uniqueFrom, List.dropWhile] using ih
    · simp [uniqueFrom, List.dropWhile, hd, unique]

theorem unique_eq_collapseRuns (s : Str) :
    unique (fun a b => decide (a = '/') && decide (b = '/')) s = collapseRuns s := by
  induction s using collapseRuns.induct with
  | case1 => simp [unique, collapseRuns]
  | case2 cs ih =>
    rw [collapseRuns, if_pos rfl, ← ih]
    simp [unique, uniqueFrom_slash]
  | case3 c cs hc ih =>
    rw [collapseRuns, if_neg hc, ← ih]
    simp [unique, uniqueFrom_of_not_slash c hc]

/-- C6. The normalised path holds no backslash and no two consecutive slashes,
and it is the path with every backslash replaced by a slash and every maximal
run of slashes replaced by one slash; `a//b\c` and `a//b\\c` both normalise to
`a/b/c`. -/
theorem C6_normalize_characterised :
    (∀ p : Str, '\\' ∉ normalize p ∧
      List.Chain' (fun a b => ¬ (a = '/' ∧ b = '/')) (normalize p) ∧
      normalize p = normalizeSpec p) ∧
    normalize "a//b\\c".toList = "a/b/c".toList ∧
    normalize "a//b\\\\c".toList = "a/b/c".toList := by
  refine ⟨fun p => ⟨normalize_no_backslash p, normalize_chain p, ?_⟩, by decide, by decide⟩
  exact unique_eq_collapseRuns _

/-! ### Removing routes -/

/-- C7, as stated. With the table holding `/a` and `del` called on `/A`, the key
`/a` is not a path whose lower-case form is in the list given to `del`, yet it
has a route before the call and none after it. -/
theorem C7_del_as_stated_fails :
    ¬ ((∀ q : Str, lowercase q ∈ ["/A".toList] →
          Routes.find (del (get [] ["/a".toList] hiHandler) ["/A".toList]) q = none) ∧
       (∀ k : Str, Routes.find (get [] ["/a".toList] hiHandler) k ≠ none →
          lowercase k ∉ ["/A".toList] →
          Routes.find (del (get [] ["/a".toList] hiHandler) ["/A".toList]) k
            = Routes.find (get [] ["/a".toList] hiHandler) k)) := by
  rintro ⟨-, h⟩
  have h3 : Routes.find (get [] ["/a".toList] hiHandler) "/a".toList
      = some { path := "/a".toList, handler := hiHandler, method := [] } :=
    find_get_of_key _ _ _ _ (by decide)
  have h1 := h "/a".toList (by rw [h3]; exact Option.some_ne_none _) (by decide)
  have h2 : Routes.find (del (get [] ["/a".toList] hiHandler) ["/A".toList]) "/a".toList = none :=
    find_del_of_mem _ _ _ (by decide)
  rw [h2, h3] at h1
  cases h1

/-- C7, amended. `del` removes exactly the lower-case forms of the listed paths:
after `del(ps)` every key that is the lower-case form of a path in `ps` has no
route, and every other key maps to the same route as before. Registering `/a`
and `/b` and then deleting `/a` leaves `/b` resolvable to its handler and `/a`
not found. -/
theorem C7_del_removes_exactly_lowercased (T : Routes) (ps : List Str) :
    (∀ q : Str, q ∈ ps.map lowercase → Routes.find (del T ps) q = none) ∧
    (∀ k : Str, k ∉ ps.map lowercase → Routes.find (del T ps) k = Routes.find T k) ∧
    (∀ h : Handler,
      Routes.find (del (get T ["/a".toList, "/b".toList] h) ["/a".toList]) "/b".toList
          = some { path := "/b".toList, handler := h, method := [] } ∧
        Routes.find (del (get T ["/a".toList, "/b".toList] h) ["/a".toList]) "/a".toList
          = none) := by
  refine ⟨fun q hq => find_del_of_mem T ps q hq, fun k hk => find_del_of_not_mem T ps k hk, ?_⟩
  intro h
  refine ⟨?_, find_del_of_mem _ _ _ (by decide)⟩
  rw [find_del_of_not_mem _ _ _ (by decide)]
  exact find_get_of_key _ _ _ _ (by decide)

theorem C7_del_removes_exactly_lowercased_witness :
    Routes.find (del demoServer.routes ["/Index.HTML".toList]) "/index.html".toList = none ∧
    Routes.find (del demoServer.routes ["/Index.HTML".toList]) "/".toList
      = Routes.find demoServer.routes "/".toList :=
  ⟨(C7_del_removes_exactly_lowercased demoServer.routes ["/Index.HTML".toList]).1
      "/index.html".toList (by decide),
   (C7_del_removes_exactly_lowercased demoServer.routes ["/Index.HTML".toList]).2.1
      "/".toList (by decide)⟩

/-! ### The connection handler -/

theorem rateLimit_routes (s : Server) (ip : Str) (now m t : Int) :
    (rateLimit s ip now m t).2.routes = s.routes := by
  unfold rateLimit
  split
  · rfl
  · simp only
    split_ifs <;> rfl

theorem rateLimit_devMode (s : Server) (ip : Str) (now m t : Int) :
    (rateLimit s ip now m t).2.devMode = s.devMode := by
  unfold rateLimit
  split
  · rfl
  · simp only
    split_ifs <;> rfl

theorem clientHandler_admitted (fs : Str → Option Str) (s : Server) (c : Conn) (bytes : Str)
    (req : Request)
    (hpass : (rateLimit s c.ip c.now s.MAX_REQUESTS s.TIME_PERIOD).1 = false)
    (hread : c.received = some bytes) (hparse : parse bytes = Except.ok req) :
    (clientHandler fs s c).effects
        = Effect.read c.socket ::
            (dispatch fs (rateLimit s c.ip c.now s.MAX_REQUESTS s.TIME_PERIOD).2 c.socket req).1 ∧
      (clientHandler fs s c).fault
        = (dispatch fs (rateLimit s c.ip c.now s.MAX_REQUESTS s.TIME_PERIOD).2 c.socket req).2 := by
  simp [clientHandler, hpass, hread, hparse]

theorem findFrom_pos (pat : Str) : ∀ (s : Str) (i : Nat), 0 < i → findFrom pat s i ≠ 0 := by
  intro s
  induction s with
  | nil =>
    intro i hi
    unfold findFrom
    split_ifs
    · omega
    · decide
  | cons c cs ih =>
    intro i hi
    unfold findFrom
    split_ifs
    · omega
    · exact ih (i + 1) (by omega)

theorem find_eq_zero_iff (s pat : Str) : find s pat = 0 ↔ pat.isPrefixOf s = true := by
  unfold find
  cases s with
  | nil =>
    cases pat with
    | nil => simp [findFrom]
    | cons a as => simp [findFrom, npos]
  | cons c cs =>
    unfold findFrom
    by_cases h : pat.isPrefixOf (c :: cs) = true
    · simp [h]
    · have h0 := findFrom_pos pat cs 1 (by omega)
      simp [h, h0]

/-- C8. `Response::send` transmits exactly `"HTTP/1.1 " ++ status ++ "\r\n\r\n" ++
body`, with no header, and closes the socket. An admitted request whose path
parses to `/index.html`, dispatched to a registered handler that sets the body
`<h1>hi</h1>` and sends, leaving the preset status, makes the connection handler
read once and send exactly `HTTP/1.1 200 OK\r\n\r\n<h1>hi</h1>`. -/
theorem C8_response_framing :
    (∀ res : Response,
      Response.send res
        = [Effect.send res.socket
             ("HTTP/1.1 ".toList ++ res.status ++ "\r\n\r\n".toList ++ res.body),
           Effect.close res.socket]) ∧
    (∀ (fs : Str → Option Str) (s : Server) (c : Conn) (bytes : Str) (req : Request)
        (route : Route),
      (rateLimit s c.ip c.now s.MAX_REQUESTS s.TIME_PERIOD).1 = false →
      c.received = some bytes → parse bytes = Except.ok req →
      req.method = "GET".toList → req.path = "/index.html".toList →
      Routes.find s.routes "/index.html".toList = some route →
      (∀ (rq : Request) (rs : Response),
        route.handler rq rs = Response.send { rs with body := "<h1>hi</h1>".toList }) →
      (clientHandler fs s c).effects
        = [Effect.read c.socket,
           Effect.send c.socket "HTTP/1.1 200 OK\r\n\r\n<h1>hi</h1>".toList,
           Effect.close c.socket]) := by
  refine ⟨fun res => rfl, ?_⟩
  intro fs s c bytes req route hpass hread hparse _ hpath hroute hhandler
  rw [(clientHandler_admitted fs s c bytes req hpass hread hparse).1]
  simp only [dispatch, rateLimit_routes, hpath, hroute, hhandler,
    Routes.count_of_find_some _ _ _ hroute]
  rfl

theorem C8_response_framing_witness :
    parse "GET /index.html HTTP/1.1\r\n\r\n".toList
      = Except.ok { method := "GET".toList, path := "/index.html".toList, body := [] } ∧
    (clientHandler emptyFs demoServer (connAt 0 "GET /index.html HTTP/1.1\r\n\r\n")).effects
      = [Effect.read 4, Effect.send 4 "HTTP/1.1 200 OK\r\n\r\n<h1>hi</h1>".toList,
         Effect.close 4] :=
  ⟨rfl,
   C8_response_framing.2 emptyFs demoServer (connAt 0 "GET /index.html HTTP/1.1\r\n\r\n")
     "GET /index.html HTTP/1.1\r\n\r\n".toList
     { method := "GET".toList, path := "/index.html".toList, body := [] }
     { path := "/index.html".toList, handler := hiHandler, method := [] }
     (by decide) rfl rfl rfl rfl rfl (fun _ _ => rfl)⟩

set_option maxRecDepth 100000 in
/-- C9. A rate-limited connection never reaches the router. Whenever `rateLimit`
rejects, whatever the route table, the file system and the bytes waiting on the
socket are, `clientHandler` does exactly two things: it sends the frame
`HTTP/1.1 429 Too Many Requests\r\n\r\n` (empty body) and closes the socket; it
does not read, raises no fault and leaves the route table alone. With the
default limits 80/10, of 81 connections of one address within ten seconds the
first 80 are read and the 81st gets the 429 frame. -/
theorem C9_rate_limited_never_routed :
    (∀ (fs : Str → Option Str) (s : Server) (c : Conn),
      (rateLimit s c.ip c.now s.MAX_REQUESTS s.TIME_PERIOD).1 = true →
      (clientHandler fs s c).effects
          = [Effect.send c.socket "HTTP/1.1 429 Too Many Requests\r\n\r\n".toList,
             Effect.close c.socket] ∧
        Effect.read c.socket ∉ (clientHandler fs s c).effects ∧
        (clientHandler fs s c).fault = none ∧
        (clientHandler fs s c).server.routes = s.routes) ∧
    (demoServer.MAX_REQUESTS = 80 ∧ demoServer.TIME_PERIOD = 10 ∧ burst.length = 81 ∧
      (∀ c ∈ burst, c.ip = someIP ∧ 0 ≤ c.now ∧ c.now < 10) ∧
      (∀ o ∈ (serveAll emptyFs demoServer burst).1.take 80,
        o.effects.head? = some (Effect.read 4)) ∧
      ((serveAll emptyFs demoServer burst).1.drop 80).map (fun o => o.effects)
        = [[Effect.send 4 "HTTP/1.1 429 Too Many Requests\r\n\r\n".toList, Effect.close 4]]) := by
  refine ⟨?_, by decide⟩
  intro fs s c hrej
  have heff : (clientHandler fs s c).effects
      = [Effect.send c.socket "HTTP/1.1 429 Too Many Requests\r\n\r\n".toList,
         Effect.close c.socket] := by
    simp [clientHandler, hrej, Response.send]
  refine ⟨heff, ?_, ?_, ?_⟩
  · rw [heff]
    simp
  · simp [clientHandler, hrej]
  · simp [clientHandler, hrej, rateLimit_routes]

set_option maxRecDepth 100000 in
theorem C9_rate_limited_never_routed_witness :
    (rateLimit (serveAll emptyFs demoServer (burst.take 80)).2 someIP 9 80 10).1 = true ∧
    (clientHandler emptyFs (serveAll emptyFs demoServer (burst.take 80)).2
        (connAt 9 "GET /index.html HTTP/1.1\r\n\r\n")).effects
      = [Effect.send 4 "HTTP/1.1 429 Too Many Requests\r\n\r\n".toList, Effect.close 4] :=
  ⟨by decide,
   (C9_rate_limited_never_routed.1 emptyFs (serveAll emptyFs demoServer (burst.take 80)).2
      (connAt 9 "GET /index.html HTTP/1.1\r\n\r\n") (by decide)).1⟩

theorem serveStaticFile_of_static (fs : Str → Option Str) (path : Str) (res : Response)
    (h : "/css".toList.isPrefixOf path = true ∨ "/js".toList.isPrefixOf path = true ∨
      "/img".toList.isPrefixOf path = true) :
    serveStaticFile fs path res = (true, serveFile fs ("/public".toList ++ path) res) := by
  unfold serveStaticFile
  rw [if_pos (by simpa only [find_eq_zero_iff] using h)]

theorem serveStaticFile_of_not_static (fs : Str → Option Str) (path : Str) (res : Response)
    (h : ¬ ("/css".toList.isPrefixOf path = true ∨ "/js".toList.isPrefixOf path = true ∨
      "/img".toList.isPrefixOf path = true)) :
    serveStaticFile fs path res = (false, []) := by
  unfold serveStaticFile
  rw [if_neg (by simpa only [find_eq_zero_iff] using h)]

/-- C10. Dispatch priority. For an admitted request that parses to `req`,
exactly one branch runs after the read. If `req.path` is a key of the route
table, the effects are those of that route's handler on the request and the
`200 OK` response, also when the path starts with `/css`, `/js` or `/img`.
Otherwise, if the path starts with one of these, the effects are those of
`serveFile` on `/public` followed by the path. Otherwise, if the path is not
`/reactpp/api/routes` and the table holds `*`, the effects are those of the `*`
handler on the request and the response with status `404 Not Found`. -/
theorem C10_dispatch_priority (fs : Str → Option Str) (s : Server) (c : Conn) (bytes : Str)
    (req : Request)
    (hpass : (rateLimit s c.ip c.now s.MAX_REQUESTS s.TIME_PERIOD).1 = false)
    (hread : c.received = some bytes) (hparse : parse bytes = Except.ok req) :
    (∀ route : Route, Routes.find s.routes req.path = some route →
      (clientHandler fs s c).effects
          = Effect.read c.socket ::
              route.handler req { status := "200 OK".toList, body := [], socket := c.socket } ∧
        (clientHandler fs s c).fault = none) ∧
    (Routes.find s.routes req.path = none →
      ("/css".toList.isPrefixOf req.path = true ∨ "/js".toList.isPrefixOf req.path = true ∨
        "/img".toList.isPrefixOf req.path = true) →
      (clientHandler fs s c).effects
          = Effect.read c.socket ::
              serveFile fs ("/public".toList ++ req.path)
                { status := "200 OK".toList, body := [], socket := c.socket } ∧
        (clientHandler fs s c).fault = none) ∧
    (Routes.find s.routes req.path = none →
      ¬ ("/css".toList.isPrefixOf req.path = true ∨ "/js".toList.isPrefixOf req.path = true ∨
        "/img".toList.isPrefixOf req.path = true) →
      req.path ≠ "/reactpp/api/routes".toList →
      ∀ wildcard : Route, Routes.find s.routes "*".toList = some wildcard →
        (clientHandler fs s c).effects
            = Effect.read c.socket ::
                wildcard.handler req
                  { status := "404 Not Found".toList, body := [], socket := c.socket } ∧
          (clientHandler fs s c).fault = none) := by
  obtain ⟨heff, hfault⟩ := clientHandler_admitted fs s c bytes req hpass hread hparse
  rw [heff, hfault]
  refine ⟨?_, ?_, ?_⟩
  · intro route hroute
    simp [dispatch, rateLimit_routes, hroute, Routes.count_of_find_some _ _ _ hroute]
  · intro hmiss hstatic
    have hs := serveStaticFile_of_static fs req.path
      { status := "200 OK".toList, body := [], socket := c.socket } hstatic
    simp only [dispatch, rateLimit_routes, hmiss, hs, Routes.count_of_find_none _ _ hmiss]
    simp
  · intro hmiss hstatic hdiag wildcard hwild
    have hs := serveStaticFile_of_not_static fs req.path
      { status := "200 OK".toList, body := [], socket := c.socket } hstatic
    simp only [dispatch, rateLimit_routes, hmiss, hs, hdiag, hwild,
      Routes.count_of_find_none _ _ hmiss]
    simp

theorem C10_dispatch_priority_witness :
    (clientHandler emptyFs cssServer (connAt 0 "GET /css/site.css HTTP/1.1\r\n\r\n")).effects
        = [Effect.read 4, Effect.send 4 "HTTP/1.1 200 OK\r\n\r\n/css/site.css".toList,
           Effect.close 4] ∧
    (clientHandler emptyFs demoServer (connAt 0 "GET /css/site.css HTTP/1.1\r\n\r\n")).effects
        = [Effect.read 4, Effect.send 4 "HTTP/1.1 200 OK\r\n\r\n".toList, Effect.close 4] ∧
    (clientHandler emptyFs demoServer (connAt 0 "GET /nowhere HTTP/1.1\r\n\r\n")).effects
        = [Effect.read 4, Effect.send 4 "HTTP/1.1 404 Not Found\r\n\r\nnot found".toList,
           Effect.close 4] :=
  ⟨((C10_dispatch_priority emptyFs cssServer (connAt 0 "GET /css/site.css HTTP/1.1\r\n\r\n")
        "GET /css/site.css HTTP/1.1\r\n\r\n".toList
        { method := "GET".toList, path := "/css/site.css".toList, body := [] }
        (by decide) rfl rfl).1
      { path := "/css/site.css".toList, handler := echoHandler, method := [] } rfl).1,
   ((C10_dispatch_priority emptyFs demoServer (connAt 0 "GET /css/site.css HTTP/1.1\r\n\r\n")
        "GET /css/site.css HTTP/1.1\r\n\r\n".toList
        { method := "GET".toList, path := "/css/site.css".toList, body := [] }
        (by decide) rfl rfl).2.1 rfl (by decide)).1,
   ((C10_dispatch_priority emptyFs demoServer (connAt 0 "GET /nowhere HTTP/1.1\r\n\r\n")
        "GET /nowhere HTTP/1.1\r\n\r\n".toList
        { method := "GET".toList, path := "/nowhere".toList, body := [] }
        (by decide) rfl rfl).2.2 rfl (by decide) (by decide)
      { path := "*".toList, handler := notFoundHandler, method := [] } rfl).1⟩

/-! ### Body extraction -/

theorem isPrefixOf_eq_true_iff_take (pat s : Str) :
    pat.isPrefixOf s = true ↔ s.take pat.length = pat := by
  rw [List.isPrefixOf_iff_prefix, List.prefix_iff_eq_take]
  exact eq_comm

theorem findFrom_first (pat : Str) :
    ∀ (s : Str) (i k : Nat), pat.isPrefixOf (s.drop k) = true →
      (∀ j, j < k → pat.isPrefixOf (s.drop j) = false) → findFrom pat s i = i + k := by
  intro s
  induction s with
  | nil =>
    intro i k hk hmin
    have hpat : pat = [] := by
      cases pat with
      | nil => rfl
      | cons a as => simp at hk
    have hk0 : k = 0 := by
      by_contra hne
      have := hmin 0 (Nat.pos_of_ne_zero hne)
      simp [hpat] at this
    simp [findFrom, hpat, hk0]
  | cons c cs ih =>
    intro i k hk hmin
    cases k with
    | zero =>
      have h0 : pat.isPrefixOf (c :: cs) = true := by simpa using hk
      simp [findFrom, h0]
    | succ k =>
      have h0 : pat.isPrefixOf (c :: cs) = false := by simpa using hmin 0 (Nat.succ_pos k)
      have hrec := ih (i + 1) k (by simpa using hk)
        (fun j hj => by simpa using hmin (j + 1) (Nat.succ_lt_succ hj))
      simp only [findFrom, h0, hrec]
      simp
      omega

theorem parse_of_first_delimiter (r : Str) (k : Nat) (hlen : r.length < 2 ^ 64)
    (hk : DELIMITER.isPrefixOf (r.drop k) = true)
    (hmin : ∀ j, j < k → DELIMITER.isPrefixOf (r.drop j) = false) :
    parse r = Except.ok { method := (extractToken r).1,
                          path := normalize (extractToken (extractToken r).2).1,
                          body := r.drop (k + 4) } := by
  have hf : find r DELIMITER = k := by
    have := findFrom_first DELIMITER r 0 k hk hmin
    simpa [find] using this
  have htake := (isPrefixOf_eq_true_iff_take DELIMITER (r.drop k)).1 hk
  have hbound : k + 4 ≤ r.length := by
    have h1 : ((r.drop k).take DELIMITER.length).length = DELIMITER.length := by rw [htake]
    have h2 : DELIMITER.length = 4 := by decide
    rw [List.length_take, List.length_drop, h2] at h1
    omega
  have hd : DELIMITER.length = 4 := by decide
  have hmod : (k + 4) % 2 ^ 64 = k + 4 := Nat.mod_eq_of_lt (by omega)
  unfold parse
  simp only [hf, hd, hmod, substr]
  rw [if_neg (by omega)]

theorem delimiter_eq : DELIMITER = CRLFCR ++ ['\n'] := by decide

theorem isPrefixOf_append_of_long (pat x y : Str) (hx : pat.length ≤ x.length) :
    pat.isPrefixOf (x ++ y) = pat.isPrefixOf x := by
  have h1 := isPrefixOf_eq_true_iff_take pat (x ++ y)
  have h2 := isPrefixOf_eq_true_iff_take pat x
  rw [List.take_append_of_le_length hx] at h1
  cases hb : pat.isPrefixOf x with
  | true => exact h1.2 (h2.1 hb)
  | false =>
    cases hc : pat.isPrefixOf (x ++ y) with
    | false => rfl
    | true => rw [h2.2 (h1.1 hc)] at hb; cases hb

theorem first_delimiter_of_split (head body : Str)
    (hfirst : ∀ k, DELIMITER.isPrefixOf ((head ++ CRLFCR).drop k) = false) :
    DELIMITER.isPrefixOf ((head ++ DELIMITER ++ body).drop head.length) = true ∧
    ∀ j, j < head.length → DELIMITER.isPrefixOf ((head ++ DELIMITER ++ body).drop j) = false := by
  constructor
  · rw [List.append_assoc, List.drop_left]
    rw [isPrefixOf_eq_true_iff_take]
    simp
  · intro j hj
    have hsplit : head ++ DELIMITER ++ body = (head ++ CRLFCR) ++ ('\n' :: body) := by
      rw [delimiter_eq]; simp
    have hjle : j ≤ (head ++ CRLFCR).length := by
      rw [List.length_append]; omega
    rw [hsplit, List.drop_append_of_le_length hjle]
    rw [isPrefixOf_append_of_long]
    · exact hfirst j
    · have h3 : CRLFCR.length = 3 := by decide
      have h4 : DELIMITER.length = 4 := by decide
      rw [List.length_drop, List.length_append, h3, h4]
      omega

/-- C11. Body extraction. If the raw request is `head ++ "\r\n\r\n" ++ body` and
`head ++ "\r\n\r"` holds no occurrence of the delimiter (so the split is at the
first occurrence), parsing succeeds and the body of the `Request` is exactly
`body`, a later delimiter inside it included. Every raw request that contains
the delimiter has such a split. -/
theorem C11_body_after_first_delimiter :
    (∀ (r head body : Str), r.length < 2 ^ 64 → r = head ++ DELIMITER ++ body →
      (∀ k, DELIMITER.isPrefixOf ((head ++ CRLFCR).drop k) = false) →
      parse r = Except.ok { method := (extractToken r).1,
                            path := normalize (extractToken (extractToken r).2).1,
                            body := body }) ∧
    (∀ r : Str, (∃ k, DELIMITER.isPrefixOf (r.drop k) = true) →
      ∃ head body, r = head ++ DELIMITER ++ body ∧
        ∀ k, DELIMITER.isPrefixOf ((head ++ CRLFCR).drop k) = false) := by
  constructor
  · intro r head body hlen hr hfirst
    obtain ⟨h1, h2⟩ := first_delimiter_of_split head body hfirst
    rw [← hr] at h1 h2
    have hp := parse_of_first_delimiter r head.length hlen h1 h2
    have hbody : r.drop (head.length + 4) = body := by
      have h4 : DELIMITER.length = 4 := by decide
      rw [hr, ← h4, ← List.length_append, List.drop_left]
    rw [hp, hbody]
  · intro r hex
    classical
    let k := Nat.find hex
    have hk : DELIMITER.isPrefixOf (r.drop k) = true := Nat.find_spec hex
    have hmin : ∀ j, j < k → DELIMITER.isPrefixOf (r.drop j) = false := fun j hj =>
      Bool.eq_false_iff.2 (Nat.find_min hex hj)
    have htake := (isPrefixOf_eq_true_iff_take DELIMITER (r.drop k)).1 hk
    have h4 : DELIMITER.length = 4 := by decide
    have hsplit : r = r.take k ++ DELIMITER ++ r.drop (k + 4) := by
      have e1 : r.drop k = DELIMITER ++ (r.drop k).drop 4 := by
        conv_lhs => rw [← List.take_append_drop 4 (r.drop k)]
        rw [← h4, htake]
      rw [List.drop_drop] at e1
      conv_lhs => rw [← List.take_append_drop k r, e1]
      rw [List.append_assoc]
    refine ⟨r.take k, r.drop (k + 4), hsplit, ?_⟩
    intro j
    have hklen : k + 4 ≤ r.length := by
      have h1 : ((r.drop k).take DELIMITER.length).length = DELIMITER.length := by rw [htake]
      rw [List.length_take, List.length_drop, h4] at h1
      omega
    have htk : (r.take k).length = k := by
      rw [List.length_take]; omega
    have h3 : CRLFCR.length = 3 := by decide
    by_cases hj : j < k
    · have hjle : j ≤ (r.take k ++ CRLFCR).length := by
        rw [List.length_append, htk]; omega
      have hlong : DELIMITER.length ≤ ((r.take k ++ CRLFCR).drop j).length := by
        rw [List.length_drop, List.length_append, htk, h3, h4]; omega
      have e := isPrefixOf_append_of_long DELIMITER ((r.take k ++ CRLFCR).drop j)
        ('\n' :: r.drop (k + 4)) hlong
      rw [← e, ← List.drop_append_of_le_length hjle]
      have hr2 : r.take k ++ CRLFCR ++ '\n' :: r.drop (k + 4) = r := by
        conv_rhs => rw [hsplit, delimiter_eq]
        simp
      rw [hr2]
      exact hmin j hj
    · cases hb : DELIMITER.isPrefixOf ((r.take k ++ CRLFCR).drop j) with
      | false => rfl
      | true =>
        have ht := (isPrefixOf_eq_true_iff_take DELIMITER _).1 hb
        have hl : ((List.drop j (r.take k ++ CRLFCR)).take DELIMITER.length).length
            = DELIMITER.length := by rw [ht]
        rw [List.length_take, List.length_drop, List.length_append, htk, h3, h4] at hl
        omega

theorem C11_body_after_first_delimiter_witness :
    parse "GET /a\r\n\r\none\r\n\r\ntwo".toList
      = Except.ok { method := (extractToken "GET /a\r\n\r\none\r\n\r\ntwo".toList).1,
                    path := normalize (extractToken
                      (extractToken "GET /a\r\n\r\none\r\n\r\ntwo".toList).2).1,
                    body := "one\r\n\r\ntwo".toList } :=
  C11_body_after_first_delimiter.1 "GET /a\r\n\r\none\r\n\r\ntwo".toList
    "GET /a".toList "one\r\n\r\ntwo".toList (by decide) (by decide)
    (by
      intro k
      rcases Nat.lt_or_ge k 10 with hk | hk
      · interval_cases k <;> decide
      · rw [List.drop_eq_nil_of_le (by simp [CRLFCR]; omega)]
        rfl)

/-! ### Static files -/

/-- C12. `serveStaticFile` returns `true` exactly when the path starts with
`/css`, `/js` or `/img`; for every other path it returns `false` and sends
nothing. -/
theorem C12_static_file_matching (fs : Str → Option Str) (p : Str) (res : Response) :
    ((serveStaticFile fs p res).1 = true ↔
      ("/css".toList.isPrefixOf p = true ∨ "/js".toList.isPrefixOf p = true ∨
        "/img".toList.isPrefixOf p = true)) ∧
    (¬ ("/css".toList.isPrefixOf p = true ∨ "/js".toList.isPrefixOf p = true ∨
        "/img".toList.isPrefixOf p = true) →
      serveStaticFile fs p res = (false, [])) := by
  refine ⟨?_, serveStaticFile_of_not_static fs p res⟩
  constructor
  · intro h
    by_contra hn
    rw [serveStaticFile_of_not_static fs p res hn] at h
    cases h
  · intro h
    rw [serveStaticFile_of_static fs p res h]

theorem C12_static_file_matching_witness :
    (serveStaticFile demoFs "/index.html".toList
        { status := "200 OK".toList, body := [], socket := 4 } = (false, [])) ∧
    (serveStaticFile demoFs "/js/app.js".toList
        { status := "200 OK".toList, body := [], socket := 4 }).1 = true :=
  ⟨(C12_static_file_matching demoFs "/index.html".toList
      { status := "200 OK".toList, body := [], socket := 4 }).2 (by decide),
   (C12_static_file_matching demoFs "/js/app.js".toList
      { status := "200 OK".toList, body := [], socket := 4 }).1.2 (by decide)⟩

/-- C13. For a path `p` that starts with `/css`, `/js` or `/img` and the
response `200 OK` with empty body that `clientHandler` passes, the file looked
up is `"public" ++ p`: if the file system has it, the frame sent is
`HTTP/1.1 200 OK\r\n\r\n` followed by the file's bytes; if it cannot be opened,
a response is sent all the same, the frame `HTTP/1.1 200 OK\r\n\r\n` with
empty body. -/
theorem C13_static_file_result (fs : Str → Option Str) (p : Str) (socket : Int)
    (hstatic : "/css".toList.isPrefixOf p = true ∨ "/js".toList.isPrefixOf p = true ∨
      "/img".toList.isPrefixOf p = true) :
    (∀ content : Str, fs ("public".toList ++ p) = some content →
      serveStaticFile fs p { status := "200 OK".toList, body := [], socket := socket }
        = (true, [Effect.send socket ("HTTP/1.1 200 OK\r\n\r\n".toList ++ content),
                  Effect.close socket])) ∧
    (fs ("public".toList ++ p) = none →
      serveStaticFile fs p { status := "200 OK".toList, body := [], socket := socket }
        = (true, [Effect.send socket "HTTP/1.1 200 OK\r\n\r\n".toList,
                  Effect.close socket])) := by
  have hdrop : ("/public".toList ++ p).drop 1 = "public".toList ++ p := rfl
  constructor
  · intro content hfile
    rw [serveStaticFile_of_static fs p _ hstatic]
    simp only [serveFile, hdrop, hfile]
    rfl
  · intro hfile
    rw [serveStaticFile_of_static fs p _ hstatic]
    simp only [serveFile, hdrop, hfile]
    rfl

theorem C13_static_file_result_witness :
    (serveStaticFile demoFs "/css/site.css".toList
        { status := "200 OK".toList, body := [], socket := 4 }
      = (true, [Effect.send 4
                  ("HTTP/1.1 200 OK\r\n\r\n".toList ++ "h1 \x7b color: red \x7d".toList),
                Effect.close 4])) ∧
    (serveStaticFile demoFs "/img/logo.png".toList
        { status := "200 OK".toList, body := [], socket := 4 }
      = (true, [Effect.send 4 "HTTP/1.1 200 OK\r\n\r\n".toList, Effect.close 4])) :=
  ⟨(C13_static_file_result demoFs "/css/site.css".toList 4 (by decide)).1
      "h1 \x7b color: red \x7d".toList (by decide),
   (C13_static_file_result demoFs "/img/logo.png".toList 4 (by decide)).2 (by decide)⟩

/-! ### The diagnostic route -/

theorem foldl_listItem_append (routes : Routes) :
    ∀ acc : Str, ∃ tail : Str,
      routes.foldl (fun acc kv => acc ++ listItem kv) acc = acc ++ tail := by
  induction routes with
  | nil => intro acc; exact ⟨[], by simp⟩
  | cons kv rest ih =>
    intro acc
    obtain ⟨tail, ht⟩ := ih (acc ++ listItem kv)
    exact ⟨listItem kv ++ tail, by rw [List.foldl_cons, ht, List.append_assoc]⟩

theorem foldl_listItem_contains (routes : Routes) (kv : Str × Route) (hkv : kv ∈ routes) :
    ∀ acc : Str, ∃ pre post : Str,
      routes.foldl (fun acc kv => acc ++ listItem kv) acc = pre ++ listItem kv ++ post := by
  induction routes with
  | nil => cases hkv
  | cons e rest ih =>
    intro acc
    rcases List.mem_cons.1 hkv with h | h
    · subst h
      obtain ⟨tail, ht⟩ := foldl_listItem_append rest (acc ++ listItem kv)
      exact ⟨acc, tail, by rw [List.foldl_cons, ht]⟩
    · exact ih h (acc ++ listItem e)

theorem routesList_contains (routes : Routes) (kv : Str × Route) (hkv : kv ∈ routes) :
    ∃ pre post : Str, routesList routes = pre ++ listItem kv ++ post := by
  obtain ⟨pre, post, h⟩ := foldl_listItem_contains routes kv hkv "<ul>".toList
  refine ⟨pre, post ++ "</ul>".toList, ?_⟩
  have hdef : routesList routes
      = routes.foldl (fun acc kv => acc ++ listItem kv) "<ul>".toList ++ "</ul>".toList := rfl
  rw [hdef, h, List.append_assoc]

/-- C14. The diagnostic route. For an admitted request that parses to the path
`/reactpp/api/routes`, with no route registered under that path: when `devMode`
is off, `Response::send` runs twice, first with the status `403 Forbidden` and
then, without any test, with the status `200 OK` and the listing as body (the
first send has closed the socket by then); when `devMode` is on, only the
`200 OK` listing is sent. The listing holds, for every entry of the route
table, the list item that links to its key. -/
theorem C14_diagnostic_route (fs : Str → Option Str) (s : Server) (c : Conn) (bytes : Str)
    (req : Request)
    (hpass : (rateLimit s c.ip c.now s.MAX_REQUESTS s.TIME_PERIOD).1 = false)
    (hread : c.received = some bytes) (hparse : parse bytes = Except.ok req)
    (hpath : req.path = "/reactpp/api/routes".toList)
    (hmiss : Routes.find s.routes "/reactpp/api/routes".toList = none) :
    (s.devMode = false →
      (clientHandler fs s c).effects
        = [Effect.read c.socket,
           Effect.send c.socket ("HTTP/1.1 403 Forbidden\r\n\r\n".toList ++ forbiddenBody),
           Effect.close c.socket,
           Effect.send c.socket
             ("HTTP/1.1 200 OK\r\n\r\n".toList ++ (listingHead ++ routesList s.routes)),
           Effect.close c.socket]) ∧
    (s.devMode = true →
      (clientHandler fs s c).effects
        = [Effect.read c.socket,
           Effect.send c.socket
             ("HTTP/1.1 200 OK\r\n\r\n".toList ++ (listingHead ++ routesList s.routes)),
           Effect.close c.socket]) ∧
    (∀ kv ∈ s.routes, ∃ pre post : Str,
      listingHead ++ routesList s.routes
        = pre ++ ("<li><a href=\"".toList ++ kv.1 ++ "\">".toList ++ kv.1 ++
            "</a>    ".toList ++ kv.2.method ++ "</li>".toList) ++ post) := by
  rw [(clientHandler_admitted fs s c bytes req hpass hread hparse).1]
  have hstatic := serveStaticFile_of_not_static fs "/reactpp/api/routes".toList
    { status := "200 OK".toList, body := [], socket := c.socket } (by decide)
  have hcount := Routes.count_of_find_none _ _ hmiss
  refine ⟨?_, ?_, ?_⟩
  · intro hdev
    simp only [dispatch, rateLimit_routes, rateLimit_devMode, hpath, hcount, hstatic, hdev]
    rfl
  · intro hdev
    simp only [dispatch, rateLimit_routes, rateLimit_devMode, hpath, hcount, hstatic, hdev]
    rfl
  · intro kv hkv
    obtain ⟨pre, post, h⟩ := routesList_contains s.routes kv hkv
    refine ⟨listingHead ++ pre, post, ?_⟩
    rw [h]
    simp [listItem, List.append_assoc]

theorem C14_diagnostic_route_witness :
    (clientHandler emptyFs demoServer
        (connAt 0 "GET /reactpp/api/routes HTTP/1.1\r\n\r\n")).effects
      = [Effect.read 4,
         Effect.send 4 ("HTTP/1.1 403 Forbidden\r\n\r\n".toList ++ forbiddenBody),
         Effect.close 4,
         Effect.send 4
           ("HTTP/1.1 200 OK\r\n\r\n".toList ++ (listingHead ++ routesList demoServer.routes)),
         Effect.close 4] :=
  (C14_diagnostic_route emptyFs demoServer (connAt 0 "GET /reactpp/api/routes HTTP/1.1\r\n\r\n")
      "GET /reactpp/api/routes HTTP/1.1\r\n\r\n".toList
      { method := "GET".toList, path := "/reactpp/api/routes".toList, body := [] }
      (by decide) rfl rfl rfl rfl).1 rfl

/-! ### The limiter, call by call -/

theorem rateLimit_first_call (s : Server) (ip : Str) (now maxRequests timePeriod : Int)
    (hnew : s.clientRequests ip = none) :
    (rateLimit s ip now maxRequests timePeriod).1 = false ∧
    (rateLimit s ip now maxRequests timePeriod).2.clientRequests ip = some 1 ∧
    (rateLimit s ip now maxRequests timePeriod).2.lastRequestTime ip = some now := by
  simp [rateLimit, hnew, mapSet]

/-- C15. The very first `rateLimit` call of a client always admits: with no
request count recorded for the address, whatever `maxRequests` and `timePeriod`
are (zero and negative values included), the call returns `false`, and
afterwards the count of the address is 1 and its recorded time is `now`. -/
theorem C15_first_call_admits (s : Server) (ip : Str) (now maxRequests timePeriod : Int)
    (hnew : s.clientRequests ip = none) :
    (rateLimit s ip now maxRequests timePeriod).1 = false ∧
    (rateLimit s ip now maxRequests timePeriod).2.clientRequests ip = some 1 ∧
    (rateLimit s ip now maxRequests timePeriod).2.lastRequestTime ip = some now :=
  rateLimit_first_call s ip now maxRequests timePeriod hnew

theorem C15_first_call_admits_witness :
    (rateLimit Server.init someIP 1700000000 0 (-5)).1 = false ∧
    (rateLimit Server.init someIP 1700000000 0 (-5)).2.clientRequests someIP = some 1 ∧
    (rateLimit Server.init someIP 1700000000 0 (-5)).2.lastRequestTime someIP
      = some 1700000000 :=
  C15_first_call_admits Server.init someIP 1700000000 0 (-5) rfl

theorem mapSet_same (m : Str → Option Int) (key : Str) (value : Int)
    (h : m key = some value) : mapSet m key value = m := by
  funext k
  unfold mapSet
  split_ifs with hk
  · rw [hk, h]
  · rfl

/-- C16. A rejected `rateLimit` call changes nothing. In a state where the
address has a recorded time whenever it has a count (as in every state the
limiter reaches from a limiter with no record), a call that returns `true` found
a count `c >= maxRequests` and a recorded time `t` with `now - t < timePeriod`,
and the state after the call is the state before it: the count and the time of
that address and the records of every other address. -/
theorem C16_rejected_call_changes_nothing (s : Server) (ip : Str)
    (now maxRequests timePeriod : Int)
    (hrec : s.clientRequests ip ≠ none → s.lastRequestTime ip ≠ none)
    (hrej : (rateLimit s ip now maxRequests timePeriod).1 = true) :
    (∃ c t : Int, s.clientRequests ip = some c ∧ s.lastRequestTime ip = some t ∧
      now - t < timePeriod ∧ maxRequests ≤ c) ∧
    (rateLimit s ip now maxRequests timePeriod).2 = s := by
  cases hc : s.clientRequests ip with
  | none => simp [rateLimit, hc] at hrej
  | some c =>
    have hsome : s.lastRequestTime ip ≠ none := hrec (by rw [hc]; exact Option.some_ne_none c)
    obtain ⟨t, ht⟩ := Option.ne_none_iff_exists'.1 hsome
    by_cases hcond : now - t < timePeriod ∧ maxRequests ≤ c
    · refine ⟨⟨c, t, rfl, ht, hcond.1, hcond.2⟩, ?_⟩
      have hstate : (rateLimit s ip now maxRequests timePeriod).2
          = { s with lastRequestTime := mapSet s.lastRequestTime ip t } := by
        simp [rateLimit, hc, ht, hcond]
      rw [hstate, mapSet_same _ _ _ ht]
    · exfalso
      have hnot : (rateLimit s ip now maxRequests timePeriod).1 = false := by
        unfold rateLimit
        simp only [hc, ht, Option.getD_some, ge_iff_le]
        rw [if_neg hcond]
        split_ifs <;> rfl
      rw [hnot] at hrej
      cases hrej

theorem C16_rejected_call_changes_nothing_witness :
    (rateLimit (rateLimitLog Server.init 2 10 [(someIP, 0), (otherIP, 3), (someIP, 9)]).2
        someIP 18 2 10).2
      = (rateLimitLog Server.init 2 10 [(someIP, 0), (otherIP, 3), (someIP, 9)]).2 :=
  (C16_rejected_call_changes_nothing
    (rateLimitLog Server.init 2 10 [(someIP, 0), (otherIP, 3), (someIP, 9)]).2
    someIP 18 2 10 (by decide) (by decide)).2

theorem rateLimit_countsWithin (s : Server) (ip : Str) (now maxRequests timePeriod : Int)
    (hmax : 1 ≤ maxRequests) (hinv : s.CountsWithin maxRequests) :
    (rateLimit s ip now maxRequests timePeriod).2.CountsWithin maxRequests := by
  intro k c hk
  by_cases hkip : k = ip
  · subst hkip
    cases hc : s.clientRequests k with
    | none =>
      have h1 := rateLimit_first_call s k now maxRequests timePeriod hc
      rw [h1.2.1] at hk
      rw [h1.2.2]
      have hc1 : c = 1 := (Option.some.inj hk).symm
      subst hc1
      exact ⟨le_refl _, hmax, Option.some_ne_none _⟩
    | some requests =>
      obtain ⟨hlo, hhi, hsome⟩ := hinv k requests hc
      obtain ⟨t, ht⟩ := Option.ne_none_iff_exists'.1 hsome
      unfold rateLimit at hk ⊢
      simp only [hc, ht, Option.getD_some, ge_iff_le] at hk ⊢
      split_ifs at hk ⊢ with h1 h2
      · simp only [hc] at hk
        have hcr : c = requests := (Option.some.inj hk).symm
        subst hcr
        exact ⟨hlo, hhi, by simp [mapSet]⟩
      · simp only [mapSet, if_true] at hk
        have hc1 : c = 1 := (Option.some.inj hk).symm
        subst hc1
        exact ⟨le_refl _, hmax, by simp [mapSet]⟩
      · simp only [mapSet, if_true] at hk
        have hcr : c = requests + 1 := (Option.some.inj hk).symm
        subst hcr
        refine ⟨by omega, ?_, by simp [mapSet]⟩
        by_contra hgt
        have hge : maxRequests ≤ requests := by omega
        have hlt : now - t < timePeriod := by omega
        exact h1 ⟨hlt, hge⟩
  · rw [rateLimit_clientRequests_other s k ip now maxRequests timePeriod hkip] at hk
    rw [rateLimit_lastRequestTime_other s k ip now maxRequests timePeriod hkip]
    exact hinv k c hk

theorem rateLimitLog_countsWithin (maxRequests timePeriod : Int) (hmax : 1 ≤ maxRequests) :
    ∀ (calls : List (Str × Int)) (s : Server), s.CountsWithin maxRequests →
      (rateLimitLog s maxRequests timePeriod calls).2.CountsWithin maxRequests := by
  intro calls
  induction calls with
  | nil => intro s h; exact h
  | cons e calls ih =>
    intro s h
    obtain ⟨ip, x⟩ := e
    exact ih _ (rateLimit_countsWithin s ip x maxRequests timePeriod hmax h)

/-- C19. The count invariant of the limiter. For fixed `maxRequests >= 1` and
`timePeriod`, starting from a limiter with no record and after any sequence of
`rateLimit` calls from any addresses (at any times, non-decreasing or not),
every address that has a count `c` has `1 <= c <= maxRequests` and has a
recorded time. -/
theorem C19_counts_within_limit (s : Server) (maxRequests timePeriod : Int)
    (calls : List (Str × Int)) (ip : Str) (c : Int)
    (hmax : 1 ≤ maxRequests) (hempty : ∀ k, s.clientRequests k = none)
    (hc : (rateLimitLog s maxRequests timePeriod calls).2.clientRequests ip = some c) :
    1 ≤ c ∧ c ≤ maxRequests ∧
      ∃ t : Int, (rateLimitLog s maxRequests timePeriod calls).2.lastRequestTime ip = some t := by
  have hinv : s.CountsWithin maxRequests := fun k c hk => by
    rw [hempty k] at hk
    cases hk
  obtain ⟨h1, h2, h3⟩ := rateLimitLog_countsWithin maxRequests timePeriod hmax calls s hinv ip c hc
  exact ⟨h1, h2, Option.ne_none_iff_exists'.1 h3⟩

theorem C19_counts_within_limit_witness :
    (1 : Int) ≤ 2 ∧ (2 : Int) ≤ 2 ∧
      ∃ t : Int, (rateLimitLog Server.init 2 10
        [(someIP, 0), (otherIP, 3), (someIP, 9), (someIP, 18), (someIP, 12)]).2.lastRequestTime
          someIP = some t :=
  C19_counts_within_limit Server.init 2 10
    [(someIP, 0), (otherIP, 3), (someIP, 9), (someIP, 18), (someIP, 12)] someIP 2
    (by decide) (fun _ => rfl) (by decide)

/-! ### Removing routes twice -/

theorem Routes.erase_of_find_none (routes : Routes) (k : Str)
    (h : Routes.find routes k = none) : Routes.erase routes k = routes := by
  induction routes with
  | nil => rfl
  | cons kr rest ih =>
    obtain ⟨k1, r⟩ := kr
    by_cases hk : k1 = k
    · simp [Routes.find, hk] at h
    · have hrest : Routes.find rest k = none := by simpa [Routes.find, hk] using h
      have ih2 := ih hrest
      unfold Routes.erase at ih2 ⊢
      rw [List.filter_cons_of_pos (by simp [hk]), ih2]

theorem del_of_absent (T : Routes) (ps : List Str)
    (h : ∀ p ∈ ps, Routes.find T (lowercase p) = none) : del T ps = T := by
  induction ps with
  | nil => rfl
  | cons p ps ih =>
    show del (Routes.erase T (lowercase p)) ps = T
    rw [Routes.erase_of_find_none T _ (h p (List.mem_cons_self _ _))]
    exact ih (fun q hq => h q (List.mem_cons_of_mem _ hq))

/-- C17. `del` is idempotent and does nothing on absent paths: applying
`del(ps)` twice gives the same table as applying it once, and if no lower-case
form of a path in `ps` is a key of the table, `del(ps)` returns the table
unchanged; `del` has no failure case. -/
theorem C17_del_idempotent (T : Routes) (ps : List Str) :
    del (del T ps) ps = del T ps ∧
    ((∀ p ∈ ps, Routes.find T (lowercase p) = none) → del T ps = T) := by
  refine ⟨?_, del_of_absent T ps⟩
  apply del_of_absent
  intro p hp
  exact find_del_of_mem T ps _ (List.mem_map.2 ⟨p, hp, rfl⟩)

theorem C17_del_idempotent_witness :
    del (del demoServer.routes ["/Index.HTML".toList, "/gone".toList])
        ["/Index.HTML".toList, "/gone".toList]
      = del demoServer.routes ["/Index.HTML".toList, "/gone".toList] ∧
    del demoServer.routes ["/gone".toList, "/ABSENT".toList] = demoServer.routes :=
  ⟨(C17_del_idempotent demoServer.routes ["/Index.HTML".toList, "/gone".toList]).1,
   (C17_del_idempotent demoServer.routes ["/gone".toList, "/ABSENT".toList]).2
     (by
       intro p hp
       simp only [List.mem_cons, List.mem_singleton, List.not_mem_nil, or_false] at hp
       rcases hp with h | h <;> subst h <;> rfl)⟩

/-! ### Lower-case keys -/

theorem isupper_tolower (c : Char) : isupper (tolower c) = false := by
  unfold tolower
  by_cases h : 'A' ≤ c ∧ c ≤ 'Z'
  · rw [if_pos h]
    have h1 : 65 ≤ c.toNat ∧ c.toNat ≤ 90 := by
      obtain ⟨a, b⟩ := h
      exact ⟨a, b⟩
    obtain ⟨a, b⟩ := h1
    interval_cases c.toNat <;> decide
  · rw [if_neg h]
    simp [isupper, h]

theorem isupper_lowercase (p : Str) : ∀ ch ∈ lowercase p, isupper ch = false := by
  intro ch hch
  obtain ⟨c, -, e⟩ := List.mem_map.1 hch
  rw [← e]
  exact isupper_tolower c

theorem Routes.keysLower_erase (routes : Routes) (k : Str) (h : routes.KeysLower) :
    (Routes.erase routes k).KeysLower := fun kr hkr =>
  h kr (List.mem_of_mem_filter hkr)

theorem Routes.keysLower_assign (routes : Routes) (k : Str) (r : Route) (h : routes.KeysLower)
    (hk : ∀ ch ∈ k, isupper ch = false) (hr : r.path = k) :
    (Routes.assign routes k r).KeysLower := by
  intro kr hkr
  rcases List.mem_cons.1 hkr with e | e
  · subst e
    exact ⟨hk, hr⟩
  · exact Routes.keysLower_erase routes k h kr e

theorem keysLower_get (ps : List Str) (handler : Handler) :
    ∀ T : Routes, T.KeysLower → (get T ps handler).KeysLower := by
  induction ps with
  | nil => intro T h; exact h
  | cons p ps ih =>
    intro T h
    exact ih _ (Routes.keysLower_assign T (lowercase p) _ h (isupper_lowercase p) rfl)

theorem keysLower_del (ps : List Str) : ∀ T : Routes, T.KeysLower → (del T ps).KeysLower := by
  induction ps with
  | nil => intro T h; exact h
  | cons p ps ih =>
    intro T h
    exact ih _ (Routes.keysLower_erase T (lowercase p) h)

theorem keysLower_apply (T : Routes) (op : RouteOp) (h : T.KeysLower) :
    (RouteOp.apply T op).KeysLower := by
  cases op with
  | get ps handler => exact keysLower_get ps handler T h
  | post ps handler => exact keysLower_get ps handler T h
  | put ps handler => exact keysLower_get ps handler T h
  | del ps => exact keysLower_del ps T h
  | pnf handler => exact Routes.keysLower_assign T _ _ h (by decide) rfl

theorem keysLower_applyOps (ops : List RouteOp) :
    ∀ T : Routes, T.KeysLower → (applyOps T ops).KeysLower := by
  induction ops with
  | nil => intro T h; exact h
  | cons op ops ih => intro T h; exact ih _ (keysLower_apply T op h)

theorem Routes.mem_of_find (routes : Routes) (k : Str) (r : Route)
    (h : Routes.find routes k = some r) : (k, r) ∈ routes := by
  induction routes with
  | nil => cases h
  | cons kr rest ih =>
    obtain ⟨k1, r1⟩ := kr
    by_cases hk : k1 = k
    · subst hk
      simp only [Routes.find, if_true] at h
      rw [Option.some.inj h]
      exact List.mem_cons_self _ _
    · simp only [Routes.find, hk, if_false] at h
      exact List.mem_cons_of_mem _ (ih h)

theorem Routes.find_none_of_upper (routes : Routes) (p : Str) (h : routes.KeysLower)
    (hp : ∃ ch ∈ p, isupper ch = true) : Routes.find routes p = none := by
  cases hf : Routes.find routes p with
  | none => rfl
  | some r =>
    obtain ⟨ch, hch, hup⟩ := hp
    have hlow := (h (p, r) (Routes.mem_of_find routes p r hf)).1 ch hch
    rw [hlow] at hup
    cases hup

/-- C20. Route keys are lower-case, request paths are not case-folded. Starting
from the empty table, after any sequence of `get`, `post`, `put`, `del` and
`pnf` calls no key holds an upper-case ASCII letter and the `path` member of
every stored route equals its key. So for an admitted request whose normalised
path holds an upper-case ASCII letter the exact lookup misses, whatever was
registered, and what runs is the static-file branch when the path starts with
`/css`, `/js` or `/img`, and the `*` entry with status `404 Not Found`
otherwise: no route registered under another key is invoked. -/
theorem C20_keys_lowercase_paths_not_folded :
    (∀ (ops : List RouteOp), ∀ kr ∈ applyOps [] ops,
      (∀ ch ∈ kr.1, isupper ch = false) ∧ kr.2.path = kr.1) ∧
    (∀ (fs : Str → Option Str) (s : Server) (c : Conn) (bytes : Str) (req : Request)
        (ops : List RouteOp),
      s.routes = applyOps [] ops →
      (rateLimit s c.ip c.now s.MAX_REQUESTS s.TIME_PERIOD).1 = false →
      c.received = some bytes → parse bytes = Except.ok req →
      (∃ ch ∈ req.path, isupper ch = true) →
      Routes.find s.routes req.path = none ∧
      (clientHandler fs s c).effects
        = Effect.read c.socket ::
            (if "/css".toList.isPrefixOf req.path = true ∨ "/js".toList.isPrefixOf req.path = true ∨
                "/img".toList.isPrefixOf req.path = true then
              serveFile fs ("/public".toList ++ req.path)
                { status := "200 OK".toList, body := [], socket := c.socket }
            else
              match Routes.find s.routes "*".toList with
              | some wildcard =>
                wildcard.handler req
                  { status := "404 Not Found".toList, body := [], socket := c.socket }
              | none => [])) := by
  have hempty : Routes.KeysLower [] := fun kr hkr => by cases hkr
  refine ⟨fun ops => keysLower_applyOps ops [] hempty, ?_⟩
  intro fs s c bytes req ops hroutes hpass hread hparse hupper
  have hlower : s.routes.KeysLower := by
    rw [hroutes]
    exact keysLower_applyOps ops [] hempty
  have hmiss := Routes.find_none_of_upper s.routes req.path hlower hupper
  refine ⟨hmiss, ?_⟩
  rw [(clientHandler_admitted fs s c bytes req hpass hread hparse).1]
  have hcount := Routes.count_of_find_none _ _ hmiss
  have hdiag : req.path ≠ "/reactpp/api/routes".toList := by
    intro e
    obtain ⟨ch, hch, hup⟩ := hupper
    rw [e] at hch
    have hall : ∀ x ∈ "/reactpp/api/routes".toList, isupper x = false := by decide
    rw [hall ch hch] at hup
    cases hup
  by_cases hstatic : "/css".toList.isPrefixOf req.path = true ∨
      "/js".toList.isPrefixOf req.path = true ∨ "/img".toList.isPrefixOf req.path = true
  · have hs := serveStaticFile_of_static fs req.path
      { status := "200 OK".toList, body := [], socket := c.socket } hstatic
    rw [if_pos hstatic]
    simp only [dispatch, rateLimit_routes, hcount, hs]
    simp
  · have hs := serveStaticFile_of_not_static fs req.path
      { status := "200 OK".toList, body := [], socket := c.socket } hstatic
    rw [if_neg hstatic]
    simp only [dispatch, rateLimit_routes, hcount, hs, hdiag]
    cases hw : Routes.find s.routes "*".toList <;> simp

theorem C20_keys_lowercase_paths_not_folded_witness :
    Routes.find demoServer.routes "/Index.html".toList = none ∧
    (clientHandler emptyFs demoServer (connAt 0 "GET /Index.html HTTP/1.1\r\n\r\n")).effects
      = Effect.read 4 ::
          (if "/css".toList.isPrefixOf "/Index.html".toList = true ∨
              "/js".toList.isPrefixOf "/Index.html".toList = true ∨
              "/img".toList.isPrefixOf "/Index.html".toList = true then
            serveFile emptyFs ("/public".toList ++ "/Index.html".toList)
              { status := "200 OK".toList, body := [], socket := 4 }
          else
            match Routes.find demoServer.routes "*".toList with
            | some wildcard =>
              wildcard.handler
                { method := "GET".toList, path := "/Index.html".toList, body := [] }
                { status := "404 Not Found".toList, body := [], socket := 4 }
            | none => []) :=
  C20_keys_lowercase_paths_not_folded.2 emptyFs demoServer
    (connAt 0 "GET /Index.html HTTP/1.1\r\n\r\n") "GET /Index.html HTTP/1.1\r\n\r\n".toList
    { method := "GET".toList, path := "/Index.html".toList, body := [] }
    [RouteOp.get ["/".toList, "/index.html".toList] hiHandler, RouteOp.pnf notFoundHandler]
    rfl (by decide) rfl rfl (by decide)

/-! ### View rendering -/

theorem keyWithBraces_cons (k : Str) :
    keyWithBraces k = '\x7b' :: '\x7b' :: (k ++ ['\x7d', '\x7d']) := rfl

theorem keyWithBraces_length (k : Str) : (keyWithBraces k).length = k.length + 4 := by
  simp [keyWithBraces_cons]

theorem View.replace_of_first (t k v : Str) (p : Nat) (hlen : t.length < npos)
    (hp : (keyWithBraces k).isPrefixOf (t.drop p) = true)
    (hmin : ∀ j, j < p → (keyWithBraces k).isPrefixOf (t.drop j) = false) :
    View.replace t k v = t.take p ++ v ++ t.drop (p + (keyWithBraces k).length) := by
  have hf : find t (keyWithBraces k) = p := by
    have := findFrom_first (keyWithBraces k) t 0 p hp hmin
    simpa [find] using this
  have hbound : p ≤ t.length := by
    by_contra hgt
    rw [List.drop_eq_nil_of_le (by omega)] at hp
    simp [keyWithBraces_cons] at hp
  have hne : p ≠ npos := by omega
  simp only [View.replace, hf, replaceAt]
  rw [if_pos hne]

theorem View.replace_of_absent (t k v : Str)
    (h : ∀ j, (keyWithBraces k).isPrefixOf (t.drop j) = false) : View.replace t k v = t := by
  have hf : find t (keyWithBraces k) = npos :=
    findFrom_absent (keyWithBraces k) (by simp [keyWithBraces_cons]) t 0 h
  simp [View.replace, hf]

theorem View.replace_of_split (pre post k v : Str)
    (hlen : (pre ++ keyWithBraces k ++ post).length < npos)
    (hmin : ∀ j, j < pre.length →
      (keyWithBraces k).isPrefixOf ((pre ++ keyWithBraces k ++ post).drop j) = false) :
    View.replace (pre ++ keyWithBraces k ++ post) k v = pre ++ v ++ post := by
  have hp : (keyWithBraces k).isPrefixOf ((pre ++ keyWithBraces k ++ post).drop pre.length)
      = true := by
    rw [List.append_assoc, List.drop_left, isPrefixOf_eq_true_iff_take]
    simp
  rw [View.replace_of_first _ k v pre.length hlen hp hmin]
  rw [List.append_assoc pre, List.take_left, ← List.length_append, ← List.append_assoc,
    List.drop_left]

theorem head_ne_of_drop (L : Str) (x : Char) (hL : x ∉ L) (n : Nat) (c : Char) (rest : Str)
    (h : L.drop n = c :: rest) : c ≠ x := by
  intro e
  apply hL
  have hc : c ∈ L.drop n := by rw [h]; exact List.mem_cons_self _ _
  exact e ▸ List.mem_of_mem_drop hc

theorem key_eq_of_closed_start (k : Str) (hk : '\x7d' ∉ k) :
    ∀ (j : Str), '\x7d' ∉ j → ∀ (x y : Str), k ++ '\x7d' :: x <+: j ++ '\x7d' :: y → k = j := by
  induction k with
  | nil =>
    intro j hj x y h
    cases j with
    | nil => rfl
    | cons d j =>
      have hd : '\x7d' = d := (List.cons_prefix_cons.1 h).1
      exact absurd (hd ▸ List.mem_cons_self _ _) hj
  | cons c k ih =>
    intro j hj x y h
    cases j with
    | nil =>
      have hc : c = '\x7d' := (List.cons_prefix_cons.1 h).1
      exact absurd (hc ▸ List.mem_cons_self _ _) hk
    | cons d j =>
      obtain ⟨hcd, hrest⟩ := List.cons_prefix_cons.1 h
      have hk2 : '\x7d' ∉ k := fun e => hk (List.mem_cons_of_mem _ e)
      have hj2 : '\x7d' ∉ j := fun e => hj (List.mem_cons_of_mem _ e)
      rw [hcd, ih hk2 j hj2 x y hrest]

theorem not_open_mem_closed (k : Str) (hk : '\x7b' ∉ k) : '\x7b' ∉ k ++ ['\x7d', '\x7d'] := by
  intro h
  rcases List.mem_append.1 h with h1 | h1
  · exact hk h1
  · revert h1
    decide

theorem head_closed_ne_open (k : Str) (hk : '\x7b' ∉ k) (rest y : Str) :
    ¬ (k ++ ['\x7d', '\x7d'] ++ rest <+: '\x7b' :: y) := by
  intro h
  cases k with
  | nil =>
    have : '\x7d' = '\x7b' := (List.cons_prefix_cons.1 h).1
    revert this
    decide
  | cons c k =>
    have hc : c = '\x7b' := (List.cons_prefix_cons.1 h).1
    exact hk (hc ▸ List.mem_cons_self _ _)

theorem placeholder_no_overlap (k j a b : Str) (hk : braceFree k) (hj : braceFree j)
    (hne : j ≠ k) (i : Nat)
    (h : keyWithBraces k <+: (a ++ keyWithBraces j ++ b).drop i) :
    i + (keyWithBraces k).length ≤ a.length ∨ a.length + (keyWithBraces j).length ≤ i := by
  by_contra hcon
  have h1 : a.length < i + (keyWithBraces k).length := by
    by_contra hx; exact hcon (Or.inl (by omega))
  have h2 : i < a.length + (keyWithBraces j).length := by
    by_contra hx; exact hcon (Or.inr (by omega))
  rw [keyWithBraces_length] at h1 h2
  rw [List.append_assoc] at h
  rcases Nat.lt_or_ge i a.length with hi | hi
  · rw [List.drop_append_of_le_length (le_of_lt hi)] at h
    have hle : (a.drop i).length ≤ (keyWithBraces k).length := by
      rw [List.length_drop, keyWithBraces_length]; omega
    obtain ⟨rest, hrest⟩ := List.prefix_of_prefix_length_le (List.prefix_append _ _) h hle
    rw [← hrest] at h
    have h' := (List.prefix_append_right_inj _).1 h
    have hdrop : (keyWithBraces k).drop (a.drop i).length = rest := by
      rw [← hrest, List.drop_left]
    have he : (a.drop i).length = a.length - i := List.length_drop _ _
    rw [he, keyWithBraces_cons] at hdrop
    rw [keyWithBraces_cons] at h'
    obtain ⟨n, hn⟩ : ∃ n, a.length - i = n + 1 := ⟨a.length - i - 1, by omega⟩
    rw [hn] at hdrop
    cases n with
    | zero =>
      simp only [zero_add, List.drop_succ_cons, List.drop_zero] at hdrop
      rw [← hdrop] at h'
      have h3 := (List.cons_prefix_cons.1 h').2
      exact head_closed_ne_open k hk.1 [] _ (by simpa using h3)
    | succ n =>
      simp only [List.drop_succ_cons] at hdrop
      cases hr : rest with
      | nil =>
        rw [hr] at hdrop
        have hl := congrArg List.length hdrop
        simp only [List.length_drop, List.length_append, List.length_cons, List.length_nil] at hl
        omega
      | cons c rest2 =>
        rw [hr] at hdrop h'
        have hc := head_ne_of_drop _ '\x7b' (not_open_mem_closed k hk.1) n c rest2 hdrop
        exact hc (List.cons_prefix_cons.1 h').1
  · obtain ⟨d, rfl⟩ : ∃ d, i = a.length + d := ⟨i - a.length, by omega⟩
    rw [List.drop_append] at h
    rw [keyWithBraces_cons, keyWithBraces_cons] at h
    cases d with
    | zero =>
      simp only [List.drop_zero, List.cons_append, List.cons_prefix_cons, true_and] at h
      apply hne
      exact (key_eq_of_closed_start k hk.2 j hj.2 ['\x7d'] ('\x7d' :: b)
        (by simpa using h)).symm
    | succ d =>
      cases d with
      | zero =>
        simp only [zero_add, List.cons_append, List.drop_succ_cons, List.drop_zero,
          List.cons_prefix_cons, true_and] at h
        cases j with
        | nil => simp at h
        | cons c j =>
          simp only [List.cons_append, List.cons_prefix_cons] at h
          exact hj.1 (h.1 ▸ List.mem_cons_self _ _)
      | succ d =>
        simp only [List.cons_append, List.drop_succ_cons] at h
        have hd : d ≤ (j ++ ['\x7d', '\x7d']).length := by
          simp only [List.length_append, List.length_cons, List.length_nil]; omega
        rw [List.drop_append_of_le_length hd] at h
        cases hr : (j ++ ['\x7d', '\x7d']).drop d with
        | nil =>
          have hl := congrArg List.length hr
          simp only [List.length_drop, List.length_append, List.length_cons,
            List.length_nil] at hl
          omega
        | cons c rest2 =>
          rw [hr] at h
          have hc := head_ne_of_drop _ '\x7b' (not_open_mem_closed j hj.1) d c rest2 hr
          exact hc (List.cons_prefix_cons.1 h).1.symm

theorem occurs_in_left (pat a rest : Str) (i : Nat) (hi : i + pat.length ≤ a.length) :
    pat.isPrefixOf ((a ++ rest).drop i) = pat.isPrefixOf (a.drop i) := by
  rw [List.drop_append_of_le_length (by omega)]
  exact isPrefixOf_append_of_long pat _ _ (by rw [List.length_drop]; omega)

theorem occurrence_bound (pat s : Str) (i : Nat) (h : pat.isPrefixOf (s.drop i) = true) :
    i + pat.length ≤ s.length ∨ pat = [] := by
  have ht := (isPrefixOf_eq_true_iff_take pat (s.drop i)).1 h
  have hl := congrArg List.length ht
  rw [List.length_take, List.length_drop] at hl
  by_cases hp : pat.length = 0
  · exact Or.inr (List.length_eq_zero.1 hp)
  · exact Or.inl (by omega)

theorem keyWithBraces_occurrence_bound (k s : Str) (i : Nat)
    (h : (keyWithBraces k).isPrefixOf (s.drop i) = true) :
    i + (keyWithBraces k).length ≤ s.length := by
  rcases occurrence_bound _ _ _ h with h1 | h1
  · exact h1
  · simp [keyWithBraces_cons] at h1

theorem View.replace_placeholder_left (k j v a b : Str) (hk : braceFree k) (hj : braceFree j)
    (hne : j ≠ k) (hlen : (a ++ keyWithBraces j ++ b).length < npos)
    (hocc : ∃ i, (keyWithBraces k).isPrefixOf (a.drop i) = true) :
    View.replace (a ++ keyWithBraces j ++ b) k v
      = View.replace a k v ++ keyWithBraces j ++ b := by
  classical
  have hp : (keyWithBraces k).isPrefixOf (a.drop (Nat.find hocc)) = true := Nat.find_spec hocc
  have hmin : ∀ i, i < Nat.find hocc → (keyWithBraces k).isPrefixOf (a.drop i) = false :=
    fun i hi => Bool.eq_false_iff.2 (Nat.find_min hocc hi)
  generalize Nat.find hocc = p at hp hmin
  have hpa := keyWithBraces_occurrence_bound k a p hp
  have halen : a.length < npos := by
    simp only [List.length_append] at hlen
    omega
  have hpt : (keyWithBraces k).isPrefixOf ((a ++ keyWithBraces j ++ b).drop p) = true := by
    rw [List.append_assoc, occurs_in_left _ _ _ _ hpa]
    exact hp
  have hmint : ∀ i, i < p →
      (keyWithBraces k).isPrefixOf ((a ++ keyWithBraces j ++ b).drop i) = false := by
    intro i hi
    cases hb : (keyWithBraces k).isPrefixOf ((a ++ keyWithBraces j ++ b).drop i) with
    | false => rfl
    | true =>
      rcases placeholder_no_overlap k j a b hk hj hne i (List.isPrefixOf_iff_prefix.1 hb)
        with h1 | h1
      · rw [List.append_assoc, occurs_in_left _ _ _ _ h1, hmin i hi] at hb
        cases hb
      · omega
  rw [View.replace_of_first _ k v p hlen hpt hmint, View.replace_of_first a k v p halen hp hmin]
  rw [List.append_assoc a, List.take_append_of_le_length (by omega),
    List.drop_append_of_le_length (by omega)]
  simp only [List.append_assoc]

theorem View.replace_placeholder_right (k j v a b : Str) (hk : braceFree k) (hj : braceFree j)
    (hne : j ≠ k) (hlen : (a ++ keyWithBraces j ++ b).length < npos)
    (hnone : ∀ i, (keyWithBraces k).isPrefixOf (a.drop i) = false) :
    View.replace (a ++ keyWithBraces j ++ b) k v
      = a ++ keyWithBraces j ++ View.replace b k v := by
  classical
  have hblen : b.length < npos := by
    simp only [List.length_append] at hlen
    omega
  have hsplit : ∀ i, (keyWithBraces k).isPrefixOf ((a ++ keyWithBraces j ++ b).drop i) = true →
      ∃ d, i = (a ++ keyWithBraces j).length + d ∧
        (keyWithBraces k).isPrefixOf (b.drop d) = true := by
    intro i hb
    rcases placeholder_no_overlap k j a b hk hj hne i (List.isPrefixOf_iff_prefix.1 hb)
      with h1 | h1
    · rw [List.append_assoc, occurs_in_left _ _ _ _ h1, hnone i] at hb
      cases hb
    · refine ⟨i - (a ++ keyWithBraces j).length, ?_, ?_⟩
      · rw [List.length_append]; omega
      · have hi : i = (a ++ keyWithBraces j).length + (i - (a ++ keyWithBraces j).length) := by
          rw [List.length_append]; omega
        rw [hi, List.drop_append] at hb
        exact hb
  by_cases hocc : ∃ q, (keyWithBraces k).isPrefixOf (b.drop q) = true
  · have hq : (keyWithBraces k).isPrefixOf (b.drop (Nat.find hocc)) = true :=
      Nat.find_spec hocc
    have hmin : ∀ i, i < Nat.find hocc → (keyWithBraces k).isPrefixOf (b.drop i) = false :=
      fun i hi => Bool.eq_false_iff.2 (Nat.find_min hocc hi)
    generalize Nat.find hocc = q at hq hmin
    have hqt : (keyWithBraces k).isPrefixOf
        ((a ++ keyWithBraces j ++ b).drop ((a ++ keyWithBraces j).length + q)) = true := by
      rw [List.drop_append]
      exact hq
    have hmint : ∀ i, i < (a ++ keyWithBraces j).length + q →
        (keyWithBraces k).isPrefixOf ((a ++ keyWithBraces j ++ b).drop i) = false := by
      intro i hi
      cases hb : (keyWithBraces k).isPrefixOf ((a ++ keyWithBraces j ++ b).drop i) with
      | false => rfl
      | true =>
        obtain ⟨d, hd, hbd⟩ := hsplit i hb
        rw [hmin d (by omega)] at hbd
        cases hbd
    rw [View.replace_of_first _ k v _ hlen hqt hmint, View.replace_of_first b k v q hblen hq hmin]
    rw [List.take_append, Nat.add_assoc, List.drop_append]
    simp only [List.append_assoc]
  · have hnb : ∀ q, (keyWithBraces k).isPrefixOf (b.drop q) = false := fun q =>
      Bool.eq_false_iff.2 (fun hq => hocc ⟨q, hq⟩)
    have hnt : ∀ i, (keyWithBraces k).isPrefixOf ((a ++ keyWithBraces j ++ b).drop i) = false := by
      intro i
      cases hb : (keyWithBraces k).isPrefixOf ((a ++ keyWithBraces j ++ b).drop i) with
      | false => rfl
      | true =>
        obtain ⟨d, -, hbd⟩ := hsplit i hb
        rw [hnb d] at hbd
        cases hbd
    rw [View.replace_of_absent _ k v hnt, View.replace_of_absent b k v hnb]

/-- C18, as stated. With the template `{{a}}{{b}}` and the mapping that sends
the single key `a}}{{b` to `X`, the key `a` is not in the mapping and the
placeholder `{{a}}` stands at the start of the template, but rendering gives
`X`, in which the placeholder `{{a}}` no longer occurs. -/
theorem C18_unlisted_placeholder_as_stated_fails :
    View.render "\x7b\x7ba\x7d\x7d\x7b\x7bb\x7d\x7d".toList
        [("a\x7d\x7d\x7b\x7bb".toList, "X".toList)] = "X".toList ∧
    "a".toList ≠ "a\x7d\x7d\x7b\x7bb".toList ∧
    "\x7b\x7ba\x7d\x7d\x7b\x7bb\x7d\x7d".toList
      = [] ++ keyWithBraces "a".toList ++ "\x7b\x7bb\x7d\x7d".toList ∧
    ¬ ∃ a2 b2 : Str,
        View.render "\x7b\x7ba\x7d\x7d\x7b\x7bb\x7d\x7d".toList
            [("a\x7d\x7d\x7b\x7bb".toList, "X".toList)]
          = a2 ++ keyWithBraces "a".toList ++ b2 := by
  have hr : View.render "\x7b\x7ba\x7d\x7d\x7b\x7bb\x7d\x7d".toList
      [("a\x7d\x7d\x7b\x7bb".toList, "X".toList)] = "X".toList := by decide
  refine ⟨hr, by decide, by decide, ?_⟩
  rintro ⟨a2, b2, h⟩
  rw [hr] at h
  have hl := congrArg List.length h
  simp only [List.length_append, keyWithBraces_length] at hl
  have h1 : "X".toList.length = 1 := by decide
  omega

/-- C18, amended. Rendering with the mapping of the single key `k` to `v`
replaces only the leftmost occurrence of `{{k}}`: if the template is
`pre ++ "{{k}}" ++ post` with no occurrence of `{{k}}` starting inside `pre`, the
result is `pre ++ v ++ post`, later occurrences and all other text as they were;
a template without `{{k}}` is returned unchanged. A placeholder `{{j}}` of another
key is left untouched when neither `k` nor `j` holds a brace: the result is the
rendering of what stands before it, the placeholder, and what stands after it,
or what stands before it, the placeholder, and the rendering of what stands
after it, according to whether `{{k}}` occurs before it. -/
theorem C18_render_first_match :
    (∀ (t k v pre post : Str), t.length < npos → t = pre ++ keyWithBraces k ++ post →
      (∀ i, i < pre.length → (keyWithBraces k).isPrefixOf (t.drop i) = false) →
      View.render t [(k, v)] = pre ++ v ++ post) ∧
    (∀ (t k v : Str), (∀ i, (keyWithBraces k).isPrefixOf (t.drop i) = false) →
      View.render t [(k, v)] = t) ∧
    (∀ (k j v a b : Str), braceFree k → braceFree j → j ≠ k →
      (a ++ keyWithBraces j ++ b).length < npos →
      ((∃ i, (keyWithBraces k).isPrefixOf (a.drop i) = true) →
        View.render (a ++ keyWithBraces j ++ b) [(k, v)]
          = View.render a [(k, v)] ++ keyWithBraces j ++ b) ∧
      ((∀ i, (keyWithBraces k).isPrefixOf (a.drop i) = false) →
        View.render (a ++ keyWithBraces j ++ b) [(k, v)]
          = a ++ keyWithBraces j ++ View.render b [(k, v)])) := by
  refine ⟨?_, ?_, ?_⟩
  · intro t k v pre post hlen ht hmin
    subst ht
    exact View.replace_of_split pre post k v hlen hmin
  · intro t k v h
    exact View.replace_of_absent t k v h
  · intro k j v a b hk hj hne hlen
    exact ⟨View.replace_placeholder_left k j v a b hk hj hne hlen,
      View.replace_placeholder_right k j v a b hk hj hne hlen⟩

theorem C18_render_first_match_witness :
    View.render "Hi \x7b\x7bname\x7d\x7d, \x7b\x7bname\x7d\x7d!".toList
        [("name".toList, "Goose".toList)]
      = "Hi ".toList ++ "Goose".toList ++ ", \x7b\x7bname\x7d\x7d!".toList ∧
    View.render ("\x7b\x7bname\x7d\x7d at ".toList ++ keyWithBraces "url".toList ++ "!".toList)
        [("name".toList, "Goose".toList)]
      = View.render "\x7b\x7bname\x7d\x7d at ".toList [("name".toList, "Goose".toList)]
          ++ keyWithBraces "url".toList ++ "!".toList :=
  ⟨C18_render_first_match.1 "Hi \x7b\x7bname\x7d\x7d, \x7b\x7bname\x7d\x7d!".toList
      "name".toList "Goose".toList "Hi ".toList ", \x7b\x7bname\x7d\x7d!".toList
      (by decide) (by decide) (by decide),
   (C18_render_first_match.2.2 "name".toList "url".toList "Goose".toList
      "\x7b\x7bname\x7d\x7d at ".toList "!".toList ⟨by decide, by decide⟩
      ⟨by decide, by decide⟩ (by decide) (by decide)).1 ⟨0, by decide⟩⟩

/-! ### The method token -/

theorem dispatch_congr (fs : Str → Option Str) (s1 s2 : Server) (socket : Int) (req : Request)
    (hroutes : s1.routes = s2.routes) (hdev : s1.devMode = s2.devMode) :
    dispatch fs s1 socket req = dispatch fs s2 socket req := by
  unfold dispatch
  rw [hroutes, hdev]

theorem dispatch_of_route (fs : Str → Option Str) (s : Server) (socket : Int) (req : Request)
    (route : Route) (hroute : Routes.find s.routes req.path = some route) :
    dispatch fs s socket req
      = (route.handler req { status := "200 OK".toList, body := [], socket := socket },
         none) := by
  simp [dispatch, hroute, Routes.count_of_find_some _ _ _ hroute]

theorem dispatch_of_static (fs : Str → Option Str) (s : Server) (socket : Int) (req : Request)
    (hmiss : Routes.find s.routes req.path = none)
    (hstatic : "/css".toList.isPrefixOf req.path = true ∨
      "/js".toList.isPrefixOf req.path = true ∨ "/img".toList.isPrefixOf req.path = true) :
    dispatch fs s socket req
      = (serveFile fs ("/public".toList ++ req.path)
           { status := "200 OK".toList, body := [], socket := socket }, none) := by
  have hs := serveStaticFile_of_static fs req.path
    { status := "200 OK".toList, body := [], socket := socket } hstatic
  simp only [dispatch, hs, Routes.count_of_find_none _ _ hmiss]
  simp

theorem dispatch_of_diagnostic (fs : Str → Option Str) (s : Server) (socket : Int)
    (req : Request) (hmiss : Routes.find s.routes req.path = none)
    (hdiag : req.path = "/reactpp/api/routes".toList) :
    dispatch fs s socket req
      = ((if s.devMode = false then
            Response.send
              { status := "403 Forbidden".toList, body := forbiddenBody, socket := socket }
          else []) ++
          Response.send
            { status := "200 OK".toList, body := listingHead ++ routesList s.routes,
              socket := socket }, none) := by
  have hs := serveStaticFile_of_not_static fs "/reactpp/api/routes".toList
    { status := "200 OK".toList, body := [], socket := socket } (by decide)
  rw [hdiag] at hmiss
  have hcount := Routes.count_of_find_none _ _ hmiss
  simp only [dispatch, hdiag, hs, hcount]
  cases s.devMode <;> simp

theorem dispatch_of_wildcard (fs : Str → Option Str) (s : Server) (socket : Int) (req : Request)
    (hmiss : Routes.find s.routes req.path = none)
    (hstatic : ¬ ("/css".toList.isPrefixOf req.path = true ∨
      "/js".toList.isPrefixOf req.path = true ∨ "/img".toList.isPrefixOf req.path = true))
    (hdiag : req.path ≠ "/reactpp/api/routes".toList) :
    dispatch fs s socket req
      = match Routes.find s.routes "*".toList with
        | some wildcard =>
          (wildcard.handler req
             { status := "404 Not Found".toList, body := [], socket := socket }, none)
        | none => ([], some Fault.nullRoute) := by
  have hs := serveStaticFile_of_not_static fs req.path
    { status := "200 OK".toList, body := [], socket := socket } hstatic
  simp only [dispatch, hs, hdiag, Routes.count_of_find_none _ _ hmiss]
  simp

theorem clientHandler_dispatch (fs : Str → Option Str) (s : Server) (c : Conn) (bytes : Str)
    (req : Request)
    (hpass : (rateLimit s c.ip c.now s.MAX_REQUESTS s.TIME_PERIOD).1 = false)
    (hread : c.received = some bytes) (hparse : parse bytes = Except.ok req) :
    (clientHandler fs s c).effects = Effect.read c.socket :: (dispatch fs s c.socket req).1 ∧
    (clientHandler fs s c).fault = (dispatch fs s c.socket req).2 := by
  obtain ⟨h1, h2⟩ := clientHandler_admitted fs s c bytes req hpass hread hparse
  rw [h1, h2, dispatch_congr fs _ s c.socket req (rateLimit_routes _ _ _ _ _)
    (rateLimit_devMode _ _ _ _ _)]
  exact ⟨rfl, rfl⟩

/-- C21. The method token plays no role in routing. `post` and `put` are the
same functions as `get`, and each stores under the lower-cased path a `Route`
whose `method` member is the empty string. For two admitted requests with the
same path (whatever their method tokens and bodies), `clientHandler` takes the
same branch: the handler of the same exact route, or the static-file branch, or
the diagnostic listing, or the handler of the `*` entry, each applied to the
request at hand; the fault, if any, is the same. In particular a route
registered with `get` is invoked whatever the method token of the request is. -/
theorem C21_method_plays_no_role :
    (post = get ∧ put = get) ∧
    (∀ (T : Routes) (ps : List Str) (h : Handler) (P : Str), P ∈ ps →
      Routes.find (get T ps h) (lowercase P)
          = some { path := lowercase P, handler := h, method := [] } ∧
        Routes.find (post T ps h) (lowercase P)
          = some { path := lowercase P, handler := h, method := [] } ∧
        Routes.find (put T ps h) (lowercase P)
          = some { path := lowercase P, handler := h, method := [] }) ∧
    (∀ (fs : Str → Option Str) (s : Server) (c1 c2 : Conn) (b1 b2 : Str) (req1 req2 : Request),
      (rateLimit s c1.ip c1.now s.MAX_REQUESTS s.TIME_PERIOD).1 = false →
      (rateLimit s c2.ip c2.now s.MAX_REQUESTS s.TIME_PERIOD).1 = false →
      c1.received = some b1 → c2.received = some b2 →
      parse b1 = Except.ok req1 → parse b2 = Except.ok req2 →
      req1.path = req2.path →
      (clientHandler fs s c1).fault = (clientHandler fs s c2).fault ∧
      (∀ route : Route, Routes.find s.routes req1.path = some route →
        (clientHandler fs s c1).effects
            = Effect.read c1.socket ::
                route.handler req1
                  { status := "200 OK".toList, body := [], socket := c1.socket } ∧
          (clientHandler fs s c2).effects
            = Effect.read c2.socket ::
                route.handler req2
                  { status := "200 OK".toList, body := [], socket := c2.socket }) ∧
      (Routes.find s.routes req1.path = none →
        ("/css".toList.isPrefixOf req1.path = true ∨ "/js".toList.isPrefixOf req1.path = true ∨
          "/img".toList.isPrefixOf req1.path = true) →
        (clientHandler fs s c1).effects
            = Effect.read c1.socket ::
                serveFile fs ("/public".toList ++ req1.path)
                  { status := "200 OK".toList, body := [], socket := c1.socket } ∧
          (clientHandler fs s c2).effects
            = Effect.read c2.socket ::
                serveFile fs ("/public".toList ++ req1.path)
                  { status := "200 OK".toList, body := [], socket := c2.socket }) ∧
      (Routes.find s.routes req1.path = none →
        req1.path = "/reactpp/api/routes".toList →
        (clientHandler fs s c1).effects
            = Effect.read c1.socket ::
                ((if s.devMode = false then
                    Response.send { status := "403 Forbidden".toList, body := forbiddenBody,
                                    socket := c1.socket }
                  else []) ++
                  Response.send { status := "200 OK".toList,
                                  body := listingHead ++ routesList s.routes,
                                  socket := c1.socket }) ∧
          (clientHandler fs s c2).effects
            = Effect.read c2.socket ::
                ((if s.devMode = false then
                    Response.send { status := "403 Forbidden".toList, body := forbiddenBody,
                                    socket := c2.socket }
                  else []) ++
                  Response.send { status := "200 OK".toList,
                                  body := listingHead ++ routesList s.routes,
                                  socket := c2.socket })) ∧
      (Routes.find s.routes req1.path = none →
        ¬ ("/css".toList.isPrefixOf req1.path = true ∨
          "/js".toList.isPrefixOf req1.path = true ∨
          "/img".toList.isPrefixOf req1.path = true) →
        req1.path ≠ "/reactpp/api/routes".toList →
        ∀ wildcard : Route, Routes.find s.routes "*".toList = some wildcard →
          (clientHandler fs s c1).effects
              = Effect.read c1.socket ::
                  wildcard.handler req1
                    { status := "404 Not Found".toList, body := [], socket := c1.socket } ∧
            (clientHandler fs s c2).effects
              = Effect.read c2.socket ::
                  wildcard.handler req2
                    { status := "404 Not Found".toList, body := [], socket := c2.socket })) := by
  refine ⟨⟨rfl, rfl⟩, ?_, ?_⟩
  · intro T ps h P hP
    exact ⟨find_get_of_mem T ps h P hP, find_get_of_mem T ps h P hP,
      find_get_of_mem T ps h P hP⟩
  · intro fs s c1 c2 b1 b2 req1 req2 hp1 hp2 hr1 hr2 hparse1 hparse2 hpath
    obtain ⟨he1, hf1⟩ := clientHandler_dispatch fs s c1 b1 req1 hp1 hr1 hparse1
    obtain ⟨he2, hf2⟩ := clientHandler_dispatch fs s c2 b2 req2 hp2 hr2 hparse2
    rw [he1, he2, hf1, hf2]
    refine ⟨?_, ?_, ?_, ?_, ?_⟩
    · cases hfind : Routes.find s.routes req1.path with
      | some route =>
        rw [dispatch_of_route fs s c1.socket req1 route hfind,
          dispatch_of_route fs s c2.socket req2 route (hpath ▸ hfind)]
      | none =>
        by_cases hstatic : "/css".toList.isPrefixOf req1.path = true ∨
            "/js".toList.isPrefixOf req1.path = true ∨ "/img".toList.isPrefixOf req1.path = true
        · rw [dispatch_of_static fs s c1.socket req1 hfind hstatic,
            dispatch_of_static fs s c2.socket req2 (hpath ▸ hfind) (hpath ▸ hstatic)]
        · by_cases hdiag : req1.path = "/reactpp/api/routes".toList
          · rw [dispatch_of_diagnostic fs s c1.socket req1 hfind hdiag,
              dispatch_of_diagnostic fs s c2.socket req2 (hpath ▸ hfind) (hpath ▸ hdiag)]
          · rw [dispatch_of_wildcard fs s c1.socket req1 hfind hstatic hdiag,
              dispatch_of_wildcard fs s c2.socket req2 (hpath ▸ hfind) (hpath ▸ hstatic)
                (hpath ▸ hdiag)]
            cases Routes.find s.routes "*".toList <;> rfl
    · intro route hfind
      rw [dispatch_of_route fs s c1.socket req1 route hfind,
        dispatch_of_route fs s c2.socket req2 route (hpath ▸ hfind)]
      exact ⟨rfl, rfl⟩
    · intro hfind hstatic
      rw [dispatch_of_static fs s c1.socket req1 hfind hstatic,
        dispatch_of_static fs s c2.socket req2 (hpath ▸ hfind) (hpath ▸ hstatic), ← hpath]
      exact ⟨rfl, rfl⟩
    · intro hfind hdiag
      rw [dispatch_of_diagnostic fs s c1.socket req1 hfind hdiag,
        dispatch_of_diagnostic fs s c2.socket req2 (hpath ▸ hfind) (hpath ▸ hdiag)]
      exact ⟨rfl, rfl⟩
    · intro hfind hstatic hdiag wildcard hwild
      rw [dispatch_of_wildcard fs s c1.socket req1 hfind hstatic hdiag,
        dispatch_of_wildcard fs s c2.socket req2 (hpath ▸ hfind) (hpath ▸ hstatic)
          (hpath ▸ hdiag), hwild]
      exact ⟨rfl, rfl⟩

theorem C21_method_plays_no_role_witness :
    (clientHandler emptyFs demoServer (connAt 0 "GET /index.html HTTP/1.1\r\n\r\nx=1")).effects
        = [Effect.read 4, Effect.send 4 "HTTP/1.1 200 OK\r\n\r\n<h1>hi</h1>".toList,
           Effect.close 4] ∧
    (clientHandler emptyFs demoServer (connAt 0 "POST /index.html HTTP/1.1\r\n\r\nx=1")).effects
        = [Effect.read 4, Effect.send 4 "HTTP/1.1 200 OK\r\n\r\n<h1>hi</h1>".toList,
           Effect.close 4] :=
  (C21_method_plays_no_role.2.2 emptyFs demoServer
      (connAt 0 "GET /index.html HTTP/1.1\r\n\r\nx=1")
      (connAt 0 "POST /index.html HTTP/1.1\r\n\r\nx=1")
      "GET /index.html HTTP/1.1\r\n\r\nx=1".toList "POST /index.html HTTP/1.1\r\n\r\nx=1".toList
      { method := "GET".toList, path := "/index.html".toList, body := "x=1".toList }
      { method := "POST".toList, path := "/index.html".toList, body := "x=1".toList }
      (by decide) (by decide) rfl rfl rfl rfl rfl).2.1
    { path := "/index.html".toList, handler := hiHandler, method := [] } rfl

end Core
